import Mathlib

/-!
Shallow embedding of the summaris news pipeline (Python Lambdas under
`src/backend/lambdas/`) together with theorems settling the spec claims.

Python strings are modelled as Lean `String`s (sequences of Unicode code
points); machine-level concerns (UTF-8 byte widths) are made explicit where
the source manipulates bytes.  Fallible Python code is modelled with
`Option`/`Except`.  Library calls of the Python standard library
(`hashlib`, `json`, `re`, `urllib`) are either implemented faithfully for
the fragments the handlers use, or taken as explicit function parameters
where only their functional type matters (cryptographic hashes).
-/

set_option maxRecDepth 4000

namespace NewsPipeline

/-! ## Python string primitives -/

/-- Whitespace characters recognised by Python `str.strip()` / `str.split()`
and by the regex class `\s` (ASCII whitespace plus the common Unicode
space characters). -/
def pyIsSpace (c : Char) : Bool :=
  c = ' ' || c = '\t' || c = '\n' || c = '\r' || c = '\x0b' || c = '\x0c' ||
  c = '\x1c' || c = '\x1d' || c = '\x1e' || c = '\x1f' || c = '\x85' ||
  c = ' ' || c = ' ' ||
  (0x2000 ≤ c.toNat && c.toNat ≤ 0x200a) ||
  c = ' ' || c = ' ' || c = ' ' || c = ' ' || c = '　'

/-- Python `str.strip()` on a character list. -/
def pyStripList (cs : List Char) : List Char :=
  ((cs.dropWhile pyIsSpace).reverse.dropWhile pyIsSpace).reverse

/-- Python `str.strip()`. -/
def pyStrip (s : String) : String := String.mk (pyStripList s.data)

/-- Python `str.lstrip()`. -/
def pyLStrip (s : String) : String := String.mk (s.data.dropWhile pyIsSpace)

/-- Python `str.rstrip()`. -/
def pyRStrip (s : String) : String :=
  String.mk ((s.data.reverse.dropWhile pyIsSpace).reverse)

/-- ASCII case folding of one character, as performed by `str.lower()` on
the ASCII range (the only range the handlers rely on). -/
def pyLowerChar (c : Char) : Char :=
  if 65 ≤ c.toNat ∧ c.toNat ≤ 90 then Char.ofNat (c.toNat + 32) else c

/-- Python `str.lower()`.  The handlers only rely on ASCII case folding
(feed hosts, scheme names, latin tokens), so the model folds the ASCII
range. -/
def pyLower (s : String) : String := String.mk (s.data.map pyLowerChar)

/-- Substring search on character lists (used to model Python `in`). -/
def listContainsSub (hay needle : List Char) : Bool :=
  needle.isPrefixOf hay ||
    match hay with
    | [] => false
    | _ :: t => listContainsSub t needle

/-- Python `a in b` for strings: substring containment. -/
def pyContains (hay needle : String) : Bool :=
  listContainsSub hay.data needle.data

/-- Python `str.splitlines()` restricted to the line breaks that occur in
the pipeline (`\n`, `\r`, `\r\n`).  `"".splitlines() = []` and a trailing
break does not produce a final empty line, as in Python. -/
def pySplitlinesList : List Char → List (List Char)
  | [] => []
  | '\n' :: rest => [] :: pySplitlinesList rest
  | '\r' :: '\n' :: rest => [] :: pySplitlinesList rest
  | '\r' :: rest => [] :: pySplitlinesList rest
  | c :: rest =>
    match pySplitlinesList rest with
    | [] => [[c]]
    | l :: ls => (c :: l) :: ls

/-- Python `str.splitlines()`. -/
def pySplitlines (s : String) : List String :=
  (pySplitlinesList s.data).map String.mk

/-- Python slicing `s[:n]` (by code points, as Python slices by
characters). -/
def pyTake (s : String) (n : Nat) : String := String.mk (s.data.take n)

/-! ## Summarizer: quality enforcement (`summarizer/handler.py`)

`JAPANESE_CHAR_RE = [぀-ヿ㐀-䶿一-鿿]`,
`TOKEN_SPLIT_RE = [\s、。・,;:!?（）()\[\]{}"'`]+` (the quote, backquote
and brace members of the class are written via `Char.ofNat`). -/

/-- One character of the class `JAPANESE_CHAR_RE`. -/
def isJapaneseChar (c : Char) : Bool :=
  (0x3040 ≤ c.toNat && c.toNat ≤ 0x30ff) ||
  (0x3400 ≤ c.toNat && c.toNat ≤ 0x4dbf) ||
  (0x4e00 ≤ c.toNat && c.toNat ≤ 0x9fff)

/-- `_contains_japanese`: `JAPANESE_CHAR_RE.search(text)`. -/
def containsJapanese (s : String) : Bool := s.data.any isJapaneseChar

/-- Membership in the splitting class of `TOKEN_SPLIT_RE`. -/
def isTokenSplitChar (c : Char) : Bool :=
  pyIsSpace c || c = '、' || c = '。' || c = '・' || c = ',' || c = ';' ||
  c = ':' || c = '!' || c = '?' || c = '（' || c = '）' || c = '(' ||
  c = ')' || c = '[' || c = ']' || c = Char.ofNat 123 || c = Char.ofNat 125 ||
  c = Char.ofNat 34 || c = Char.ofNat 39 || c = Char.ofNat 96

/-- Helper for `TOKEN_SPLIT_RE.split`: cut at every class character.
(The regex splits on *runs* of class characters; cutting at single
characters yields extra empty pieces, which `_tokenize` discards, so the
surviving tokens agree.) -/
def splitOnTokenClass : List Char → List (List Char)
  | [] => [[]]
  | c :: rest =>
    if isTokenSplitChar c then
      [] :: splitOnTokenClass rest
    else
      match splitOnTokenClass rest with
      | [] => [[c]]
      | l :: ls => (c :: l) :: ls

/-- `_tokenize`. -/
def tokenize (text : String) : List String :=
  (splitOnTokenClass text.data).foldr
    (fun raw acc =>
      let token := pyStrip (String.mk raw)
      if token = "" then acc
      else if containsJapanese token then token :: acc
      else
        let lowered := pyLower token
        if lowered.length < 3 then acc else lowered :: acc)
    []

/-- `_has_article_overlap`. -/
def hasArticleOverlap (article summary : String) : Bool :=
  if article = "" || summary = "" then false
  else
    let articleNormalised := pyLower article
    let tokens := (tokenize summary).take 40
    if tokens = [] then false
    else
      let numMatches := (tokens.filter fun token =>
        let target := if containsJapanese token then token else pyLower token
        target ≠ "" && pyContains articleNormalised target).length
      let threshold := max 1 (tokens.length / 6)
      decide (numMatches ≥ threshold)

/-- The result dict produced by the summary parser: keys `summary_long`
(string) and `diff_points` (list of strings). -/
structure SummaryResult where
  summary_long : String
  diff_points : List String
deriving DecidableEq

/-- `_fallback_summary()`. -/
def fallbackSummary : SummaryResult := ⟨"", []⟩

/-- `_enforce_summary_quality`.  The input dict is `none` for the empty
dict (`if not summaries`), `some s` for the two-key dict every parser
path produces. -/
def enforceSummaryQuality (article : String) (summaries : Option SummaryResult) :
    SummaryResult :=
  match summaries with
  | none => fallbackSummary
  | some s =>
    let summaryDetail := pyStrip s.summary_long
    if article ≠ "" then
      let articleHasJp := containsJapanese article
      let summaryHasJp := summaryDetail ≠ "" && containsJapanese summaryDetail
      if articleHasJp = summaryHasJp then
        if ¬ hasArticleOverlap article summaryDetail then fallbackSummary else s
      else s
    else s

/-! ## Collector: fetch retry (`collector/handler.py`, `_request_with_retry`) -/

/-- Outcome of one `urllib.request.urlopen` call. -/
inductive FetchOutcome where
  | success (body : String)
  | httpError (status : Nat)
  | urlError
deriving DecidableEq

/-- `RETRYABLE_STATUS_CODES = {408, 429, 500, 502, 503, 504}`. -/
def RETRYABLE_STATUS_CODES : List Nat := [408, 429, 500, 502, 503, 504]

/-- Errors propagating out of `_request_with_retry`.  `fellThrough` models
the implicit `None` return when the loop is entered with
`max_attempts = 0`. -/
inductive FetchErr where
  | http (status : Nat)
  | url
  | fellThrough
deriving DecidableEq

/-- Result of the retry loop together with its observable effects: the
sleeps performed (`time.sleep`, in seconds, exact rationals in place of
floats) and the number of requests issued. -/
structure RetryTrace where
  result : Except FetchErr String
  sleeps : List ℚ
  attempts : Nat

/-- Loop body of `_request_with_retry`; `remaining = max_attempts - attempt`
counts the iterations the `while` guard still allows, and
`responses i` is the outcome of the `i`-th (0-based) request. -/
def requestWithRetryAux (responses : Nat → FetchOutcome) (maxAttempts : Nat) :
    Nat → Nat → ℚ → List ℚ → RetryTrace
  | 0, attempt, _, sleeps => ⟨.error .fellThrough, sleeps, attempt⟩
  | remaining + 1, attempt, sleep, sleeps =>
    let att := attempt + 1
    match responses (att - 1) with
    | .success body => ⟨.ok body, sleeps, att⟩
    | .httpError status =>
      if status ∈ RETRYABLE_STATUS_CODES ∧ att < maxAttempts then
        requestWithRetryAux responses maxAttempts remaining att
          (min (sleep * 2) 8) (sleeps ++ [sleep])
      else ⟨.error (.http status), sleeps, att⟩
    | .urlError =>
      if att < maxAttempts then
        requestWithRetryAux responses maxAttempts remaining att
          (min (sleep * 2) 8) (sleeps ++ [sleep])
      else ⟨.error .url, sleeps, att⟩

/-- `_request_with_retry(url, headers, max_attempts, base_sleep, ...)`,
with the network abstracted as the outcome sequence `responses`. -/
def requestWithRetry (responses : Nat → FetchOutcome) (maxAttempts : Nat)
    (baseSleep : ℚ) : RetryTrace :=
  requestWithRetryAux responses maxAttempts maxAttempts 0 baseSleep []

/-! ## Collector: feed-content fallback (`collector.handle`, lines 500–506) -/

/-- The arbitration between the primary extraction result
(`normalized_body`) and the feed-entry text (`feed_entry_body`):
```
if feed_entry_body:
    if not normalized_body:
        normalized_body = feed_entry_body
    elif len(normalized_body) < 200 and len(feed_entry_body) > len(normalized_body):
        normalized_body = feed_entry_body
```
`none`/`some ""` model Python `None`/the empty string (both falsy). -/
def resolveArticleBody (normalizedBody feedEntryBody : Option String) :
    Option String :=
  match feedEntryBody with
  | none => normalizedBody
  | some fb =>
    if fb = "" then normalizedBody
    else
      match normalizedBody with
      | none => some fb
      | some nb =>
        if nb = "" then some fb
        else if nb.length < 200 ∧ fb.length > nb.length then some fb
        else some nb

/-! ## `urllib.parse` model (`shared/url.py` dependencies)

`urlparse` / `parse_qsl` / `urlencode` / `urlunparse` are implemented for
the fragments `normalize_url` and `ensure_source_link` exercise.  Strings
are Unicode code-point sequences; percent-encoding goes through explicit
UTF-8 bytes (`Nat` values < 256).  `urlsplit`'s `ValueError` on
mismatched `[`/`]` in the authority is modelled with `Except`; its
NFKC/bracketed-host refinements, which only reject further exotic inputs,
are not modelled. -/

/-- ASCII letter (`str.isalpha()` restricted to ASCII, as
`url[0].isascii() and url[0].isalpha()` checks). -/
def isAsciiAlpha (c : Char) : Bool :=
  (65 ≤ c.toNat && c.toNat ≤ 90) || (97 ≤ c.toNat && c.toNat ≤ 122)

/-- ASCII digit. -/
def isAsciiDigit (c : Char) : Bool := 48 ≤ c.toNat && c.toNat ≤ 57

/-- `scheme_chars` of `urllib.parse`. -/
def isSchemeChar (c : Char) : Bool :=
  isAsciiAlpha c || isAsciiDigit c || c = '+' || c = '-' || c = '.'

/-- `s.split(sep, 1)`: split at the first occurrence of one character,
`none` when the character does not occur. -/
def splitOnceChar (sep : Char) : List Char → Option (List Char × List Char)
  | [] => none
  | c :: rest =>
    if c = sep then some ([], rest)
    else
      match splitOnceChar sep rest with
      | none => none
      | some (a, b) => some (c :: a, b)

/-- `_splitnetloc`: the authority extends to the first `/`, `?` or `#`. -/
def isNetlocDelim (c : Char) : Bool := c = '/' || c = '?' || c = '#'

/-- `_splitnetloc(url, 2)` after the leading `//` has been dropped. -/
def splitNetloc : List Char → List Char × List Char
  | [] => ([], [])
  | c :: rest =>
    if isNetlocDelim c then ([], c :: rest)
    else
      let (a, b) := splitNetloc rest
      (c :: a, b)

/-- Result of `urllib.parse.urlsplit`. -/
structure SplitResult where
  scheme : String
  netloc : String
  path : String
  query : String
  fragment : String
deriving DecidableEq

/-- `urllib.parse.urlsplit` (fragments allowed, no default scheme). -/
def pyUrlsplit (url : String) : Except Unit SplitResult :=
  let (scheme, rest) :=
    match splitOnceChar ':' url.data with
    | some (before, after) =>
      if before ≠ [] ∧ isAsciiAlpha (before.headD ' ') ∧ before.all isSchemeChar then
        (before.map pyLowerChar, after)
      else ([], url.data)
    | none => ([], url.data)
  let (netloc, rest) :=
    if rest.take 2 = ['/', '/'] then splitNetloc (rest.drop 2)
    else ([], rest)
  if ('[' ∈ netloc ∧ ']' ∉ netloc) ∨ (']' ∈ netloc ∧ '[' ∉ netloc) then
    .error ()
  else
    let (rest, fragment) :=
      match splitOnceChar '#' rest with
      | some (a, b) => (a, b)
      | none => (rest, [])
    let (path, query) :=
      match splitOnceChar '?' rest with
      | some (a, b) => (a, b)
      | none => (rest, [])
    .ok ⟨String.mk scheme, String.mk netloc, String.mk path,
      String.mk query, String.mk fragment⟩

/-- Index of the last `/` in `url` (requires one to exist, as at the call
site guarded by `'/' in url`). -/
def lastSlashIdx (url : List Char) : Nat :=
  url.length - 1 - ((url.reverse.findIdx? (· = '/')).getD 0)

/-- `urllib.parse._splitparams`. -/
def splitParams (url : List Char) : List Char × List Char :=
  if '/' ∈ url then
    match (url.drop (lastSlashIdx url)).findIdx? (· = ';') with
    | none => (url, [])
    | some k =>
      (url.take (lastSlashIdx url + k), url.drop (lastSlashIdx url + k + 1))
  else
    match url.findIdx? (· = ';') with
    | none => (url, [])
    | some i => (url.take i, url.drop (i + 1))

/-- Result of `urllib.parse.urlparse`. -/
structure ParseResult where
  scheme : String
  netloc : String
  path : String
  params : String
  query : String
  fragment : String
deriving DecidableEq

/-- `urllib.parse.urlparse`. -/
def pyUrlparse (url : String) : Except Unit ParseResult :=
  match pyUrlsplit url with
  | .error e => .error e
  | .ok s =>
    if ';' ∈ s.path.data then
      .ok ⟨s.scheme, s.netloc, String.mk (splitParams s.path.data).1,
        String.mk (splitParams s.path.data).2, s.query, s.fragment⟩
    else .ok ⟨s.scheme, s.netloc, s.path, "", s.query, s.fragment⟩

/-! ### Percent-encoding (`quote_plus` / `unquote`) via UTF-8 -/

/-- UTF-8 encoding of one code point, as byte values. -/
def utf8EncodeChar (c : Char) : List Nat :=
  if c.toNat < 0x80 then [c.toNat]
  else if c.toNat < 0x800 then [0xc0 + c.toNat / 64, 0x80 + c.toNat % 64]
  else if c.toNat < 0x10000 then
    [0xe0 + c.toNat / 4096, 0x80 + (c.toNat / 64) % 64, 0x80 + c.toNat % 64]
  else
    [0xf0 + c.toNat / 262144, 0x80 + (c.toNat / 4096) % 64,
      0x80 + (c.toNat / 64) % 64, 0x80 + c.toNat % 64]

/-- U+FFFD, produced by `errors="replace"` decoding. -/
def replacementChar : Char := Char.ofNat 0xfffd

/-- A UTF-8 continuation byte. -/
def isContByte (b : Nat) : Bool := 0x80 ≤ b && b < 0xc0

/-- Decode one UTF-8 sequence whose leading byte is `b` and whose
following bytes head `rest`: the decoded character (U+FFFD for malformed
data) and the number of bytes consumed. -/
def utf8DecodeOne (b : Nat) (rest : List Nat) : Char × Nat :=
  if b < 128 then (Char.ofNat b, 1)
  else if b < 194 then (replacementChar, 1)
  else if b < 224 then
    match rest with
    | b1 :: _ =>
      if isContByte b1 then (Char.ofNat ((b - 192) * 64 + (b1 - 128)), 2)
      else (replacementChar, 1)
    | [] => (replacementChar, 1)
  else if b < 240 then
    match rest with
    | b1 :: b2 :: _ =>
      if isContByte b1 && isContByte b2 &&
          (decide (224 < b) || decide (160 ≤ b1)) &&
          (decide (b ≠ 237) || decide (b1 < 160)) then
        (Char.ofNat ((b - 224) * 4096 + (b1 - 128) * 64 + (b2 - 128)), 3)
      else (replacementChar, 1)
    | _ => (replacementChar, 1)
  else if b < 245 then
    match rest with
    | b1 :: b2 :: b3 :: _ =>
      if isContByte b1 && isContByte b2 && isContByte b3 &&
          (decide (240 < b) || decide (144 ≤ b1)) &&
          (decide (b ≠ 244) || decide (b1 < 144)) then
        (Char.ofNat ((b - 240) * 262144 + (b1 - 128) * 4096 +
          (b2 - 128) * 64 + (b3 - 128)), 4)
      else (replacementChar, 1)
    | _ => (replacementChar, 1)
  else (replacementChar, 1)

/-- UTF-8 decoding with replacement of malformed data (the decoder used by
`unquote(..., errors="replace")`; replacement granularity for malformed
runs is per leading byte, which agrees with CPython on all well-formed
input). -/
def utf8DecodeList : List Nat → List Char
  | [] => []
  | b :: rest =>
    (utf8DecodeOne b rest).1 ::
      utf8DecodeList (rest.drop ((utf8DecodeOne b rest).2 - 1))
termination_by l => l.length
decreasing_by
  simp only [List.length_cons]
  have := List.length_drop ((utf8DecodeOne b rest).2 - 1) rest
  omega

/-- The characters `urllib.parse.quote` never encodes (its `_ALWAYS_SAFE`:
letters, digits, `_.-~`) together with the default `safe="/"`. -/
def isQuoteSafe (c : Char) : Bool :=
  isAsciiAlpha c || isAsciiDigit c || c = '_' || c = '.' || c = '-' ||
    c = '~' || c = '/'

/-- Uppercase hex digit for a value below 16. -/
def hexDigitUpper (n : Nat) : Char :=
  if n < 10 then Char.ofNat (48 + n) else Char.ofNat (55 + n)

/-- `%XX` escape of one byte. -/
def percentEncodeByte (b : Nat) : List Char :=
  ['%', hexDigitUpper (b / 16), hexDigitUpper (b % 16)]

/-- Per-character action of `urllib.parse.quote_plus` with default safe
set: spaces become `+`, safe characters pass through, everything else is
%-escaped from its UTF-8 bytes. -/
def quotePlusChar (c : Char) : List Char :=
  if c = ' ' then ['+']
  else if isQuoteSafe c then [c]
  else (utf8EncodeChar c).flatMap percentEncodeByte

/-- `urllib.parse.quote_plus`. -/
def quotePlus (s : String) : String :=
  String.mk (s.data.flatMap quotePlusChar)

/-- Value of a hex digit, as accepted by `unquote` (both cases). -/
def hexVal (c : Char) : Option Nat :=
  if 48 ≤ c.toNat ∧ c.toNat ≤ 57 then some (c.toNat - 48)
  else if 97 ≤ c.toNat ∧ c.toNat ≤ 102 then some (c.toNat - 87)
  else if 65 ≤ c.toNat ∧ c.toNat ≤ 70 then some (c.toNat - 55)
  else none

/-- One step of `unquote`: when `c` opens a `%XX` escape, the byte value
and 3 consumed characters, otherwise no byte and 1 consumed character. -/
def unquoteStep (c : Char) (rest : List Char) : Option Nat × Nat :=
  if c = '%' then
    match rest with
    | h1 :: h2 :: _ =>
      match hexVal h1, hexVal h2 with
      | some a, some b => (some (a * 16 + b), 3)
      | _, _ => (none, 1)
    | _ => (none, 1)
  else (none, 1)

/-- `urllib.parse.unquote(s, errors="replace")`: maximal runs of `%XX`
escapes are collected as bytes (`pending`, reversed) and UTF-8-decoded;
a `%` not followed by two hex digits stays literal. -/
def unquoteAux : List Char → List Nat → List Char
  | [], pending => utf8DecodeList pending.reverse
  | c :: rest, pending =>
    match unquoteStep c rest with
    | (some b, k) => unquoteAux (rest.drop (k - 1)) (b :: pending)
    | (none, _) =>
      utf8DecodeList pending.reverse ++ c :: unquoteAux rest []
termination_by l _ => l.length
decreasing_by
  all_goals simp only [List.length_cons]
  · have := List.length_drop (k - 1) rest
    omega
  · omega

/-- `unquote_plus` as `parse_qsl` uses it: `+` replaced by a space, then
percent-decoding. -/
def unquotePlusList (cs : List Char) : String :=
  String.mk (unquoteAux (cs.map fun c => if c = '+' then ' ' else c) [])

/-- Python `s.split(sep)` on one character (`"".split(sep) = [""]`). -/
def pySplitChar (sep : Char) : List Char → List (List Char)
  | [] => [[]]
  | c :: rest =>
    if c = sep then [] :: pySplitChar sep rest
    else
      match pySplitChar sep rest with
      | [] => [[c]]
      | l :: ls => (c :: l) :: ls

/-- `urllib.parse.parse_qsl(qs, keep_blank_values=True)`. -/
def parseQsl (qs : String) : List (String × String) :=
  (pySplitChar '&' qs.data).foldr
    (fun nameValue acc =>
      if nameValue = [] then acc
      else
        match splitOnceChar '=' nameValue with
        | some (nm, vl) => (unquotePlusList nm, unquotePlusList vl) :: acc
        | none => (unquotePlusList nameValue, unquotePlusList []) :: acc)
    []

/-- `sep.join(pieces)` on character lists. -/
def joinSep (sep : Char) : List (List Char) → List Char
  | [] => []
  | [x] => x
  | x :: xs => x ++ sep :: joinSep sep xs

/-- `urllib.parse.urlencode(pairs, doseq=True)` over string pairs with
`quote_via=quote_plus`: `"&".join(f"{quote_plus(k)}={quote_plus(v)}")`. -/
def urlencode (pairs : List (String × String)) : String :=
  String.mk (joinSep '&'
    (pairs.map fun kv => (quotePlus kv.1).data ++ '=' :: (quotePlus kv.2).data))

/-- The `(key, value)` ordering `list.sort()` uses: lexicographic tuple
comparison with code-point string comparison. -/
def pairLe (a b : String × String) : Bool :=
  decide (a.1 < b.1) || (a.1 = b.1 && decide (a.2 ≤ b.2))

/-- Ordered insertion for `sortPairs`. -/
def insertPair (x : String × String) :
    List (String × String) → List (String × String)
  | [] => [x]
  | y :: ys => if pairLe x y then x :: y :: ys else y :: insertPair x ys

/-- `query_pairs.sort()`.  With this total order equal elements are
identical pairs, so insertion sort produces the same list as Python's
stable sort. -/
def sortPairs (l : List (String × String)) : List (String × String) :=
  l.foldr insertPair []

/-- `urllib.parse.urlunsplit`. -/
def urlunsplit (scheme netloc path query fragment : String) : String :=
  let url := path.data
  let url :=
    if netloc ≠ "" ∨ (url ≠ [] ∧ url.take 2 = ['/', '/']) then
      let url := if url ≠ [] ∧ url.take 1 ≠ ['/'] then '/' :: url else url
      '/' :: '/' :: (netloc.data ++ url)
    else url
  let url := if scheme ≠ "" then scheme.data ++ ':' :: url else url
  let url := if query ≠ "" then url ++ '?' :: query.data else url
  let url := if fragment ≠ "" then url ++ '#' :: fragment.data else url
  String.mk url

/-- `urllib.parse.urlunparse`. -/
def urlunparse (scheme netloc path params query fragment : String) : String :=
  let path := if params ≠ "" then path ++ ";" ++ params else path
  urlunsplit scheme netloc path query fragment

/-! ## `shared/url.py` -/

/-- `_TRACKING_PARAMS`. -/
def TRACKING_PARAMS : List String :=
  ["utm_source", "utm_medium", "utm_campaign", "utm_term", "utm_content",
   "utm_id", "gclid", "fbclid", "mc_cid", "mc_eid"]

/-- `strip_tracking_params`. -/
def stripTrackingParams (pairs : List (String × String)) :
    List (String × String) :=
  pairs.filter fun kv => !TRACKING_PARAMS.contains kv.1

/-- Python `str.endswith`. -/
def pyEndsWith (s suffix : String) : Bool := suffix.data.isSuffixOf s.data

/-- Python slicing `s[:-n]` for `0 < n ≤ len(s)`. -/
def pyDropRight (s : String) (n : Nat) : String :=
  String.mk (s.data.take (s.data.length - n))

/-- The scheme `normalize_url` settles on: the parsed scheme lowered,
`https` when the URL had none. -/
def normScheme (rawScheme : String) : String :=
  pyLower (if rawScheme = "" then "https" else rawScheme)

/-- The two default-port strips of `normalize_url` (`:80` under `http`,
`:443` under `https`); at most one can fire for a given scheme. -/
def stripDefaultPort (scheme netloc : String) : String :=
  if scheme = "http" ∧ pyEndsWith netloc ":80" then pyDropRight netloc 3
  else if scheme = "https" ∧ pyEndsWith netloc ":443" then pyDropRight netloc 4
  else netloc

/-- `parsed.path or "/"`. -/
def normPath (p : String) : String := if p = "" then "/" else p

/-- `parsed.netloc.split(":")[0]` on an already-normalized netloc. -/
def hostOf (netloc : String) : String :=
  String.mk (netloc.data.takeWhile (· ≠ ':'))

/-- Query handling of `normalize_url`: parse, drop tracking params unless
the host is `straitstimes.com`, sort. -/
def normQueryPairs (hostname : String) (q : String) :
    List (String × String) :=
  sortPairs (if ¬ pyEndsWith hostname "straitstimes.com" = true
    then stripTrackingParams (parseQsl q) else parseQsl q)

/-- The normalized string `normalize_url` rebuilds from a parse result. -/
def normalizeCore (r : ParseResult) : String :=
  urlunparse (normScheme r.scheme)
    (stripDefaultPort (normScheme r.scheme) (pyLower r.netloc))
    (normPath r.path) ""
    (urlencode (normQueryPairs
      (hostOf (stripDefaultPort (normScheme r.scheme) (pyLower r.netloc)))
      r.query)) ""

/-- `normalize_url`.  `sha256hex` abstracts
`hashlib.sha256(...).hexdigest()`: the claims only depend on it being a
function of the normalized string. -/
def normalizeUrl (sha256hex : String → String) (url : String) :
    Except Unit (String × String) :=
  match pyUrlparse (pyStrip url) with
  | .error e => .error e
  | .ok parsed => .ok (normalizeCore parsed, sha256hex (normalizeCore parsed))

/-- `ensure_source_link`. -/
def ensureSourceLink (sourceId : String) (url : Option String) :
    Option String :=
  match url with
  | none => none
  | some u =>
    if u = "" then some u
    else if sourceId ≠ "straits-times" then some u
    else
      match pyUrlparse u with
      | .error _ => some u
      | .ok parsed =>
        let hostname := pyLower parsed.netloc
        if ¬ hostname.endsWith "straitstimes.com" then some u
        else
          let queryPairs := parseQsl parsed.query
          let existingKeys := queryPairs.map Prod.fst
          let (queryPairs, updated) :=
            if ¬ existingKeys.contains "utm_source" then
              (queryPairs ++ [("utm_source", "rss")], true)
            else (queryPairs, false)
          let (queryPairs, updated) :=
            if ¬ existingKeys.contains "utm_medium" then
              (queryPairs ++ [("utm_medium", "referral")], true)
            else (queryPairs, updated)
          if ¬ updated then some u
          else
            let rebuilt := urlencode queryPairs
            some (urlunparse parsed.scheme parsed.netloc parsed.path
              parsed.params rebuilt parsed.fragment)

/-! ## Dispatcher: `_build_item` -/

/-- One feed entry as `_fetch_feed_entries` produces it. -/
structure FeedEntry where
  link : String
  title : String
  published_at : Option String
deriving DecidableEq

/-- The item dict `_build_item` constructs. -/
structure BuiltItem where
  link : String
  title : String
  id : String
  normalized_link : String
  link_fingerprint : String
  published_at : Option String
deriving DecidableEq

/-- `dispatcher/handler.py`: `_build_item`.  `md5hex` abstracts
`hashlib.md5(...).hexdigest()`. -/
def buildItem (sha256hex md5hex : String → String) (sourceId : String)
    (entry : FeedEntry) : Except Unit BuiltItem := do
  let rawLink := pyStrip entry.link
  let link :=
    match ensureSourceLink sourceId (some rawLink) with
    | some l => if l ≠ "" then l else rawLink
    | none => rawLink
  let title := pyStrip entry.title
  let (normalizedLink, fingerprint) ← normalizeUrl sha256hex link
  let hashed :=
    if normalizedLink ≠ "" then md5hex normalizedLink else md5hex link
  return ⟨link, title, sourceId ++ "-" ++ hashed, normalizedLink, fingerprint,
    entry.published_at⟩

/-! ## Summarizer: `_should_generate_detailed` (C6) -/

/-- JSON-like values as they appear in Lambda events. -/
inductive JValue where
  | null
  | bool (b : Bool)
  | int (n : Int)
  | float (q : Rat)
  | str (s : String)
  | arr (xs : List JValue)
  | obj (kvs : List (String × JValue))

/-- Python truthiness on such values. -/
def pyTruthy : JValue → Bool
  | .null => false
  | .bool b => b
  | .int n => decide (n ≠ 0)
  | .float q => decide (q ≠ 0)
  | .str s => decide (s ≠ "")
  | .arr [] => false
  | .arr (_ :: _) => true
  | .obj [] => false
  | .obj (_ :: _) => true

/-- `d.get(k)`: `None` (here `.null`) when the key is absent. -/
def dictGet (kvs : List (String × JValue)) (k : String) : JValue :=
  (kvs.lookup k).getD .null

/-- Python `a or b`. -/
def pyOr (v dflt : JValue) : JValue := if pyTruthy v then v else dflt

/-- Tail of a Python integer literal body: digits with single underscores
between digits. -/
def isPyIntTail : List Char → Bool
  | [] => true
  | ['_'] => false
  | '_' :: d :: rest => isAsciiDigit d && isPyIntTail (d :: rest)
  | d :: rest => isAsciiDigit d && isPyIntTail rest

/-- `\d(_?\d)*`: the digit run `int(str)` accepts after the sign. -/
def isPyIntBody : List Char → Bool
  | [] => false
  | c :: rest => isAsciiDigit c && isPyIntTail rest

/-- Numeric value of such a digit run, skipping underscores. -/
def digitsToNat (cs : List Char) : Nat :=
  cs.foldl (fun a c => if c = '_' then a else a * 10 + (c.toNat - 48)) 0

/-- Python `int(s)` on an already-stripped string. -/
def pyParseInt (s : String) : Option Int :=
  match s.data with
  | '+' :: rest =>
    if isPyIntBody rest then some (digitsToNat rest) else none
  | '-' :: rest =>
    if isPyIntBody rest then some (-(digitsToNat rest : Int)) else none
  | cs => if isPyIntBody cs then some (digitsToNat cs) else none

/-- `_coerce_requested_at`: ints and floats (but not bools) truncate to
int; nonblank strings parse as integer literals; everything else is None. -/
def coerceRequestedAt : JValue → Option Int
  | .int n => some n
  | .float q => some (q.num / (q.den : Int))
  | .str s => if pyStrip s ≠ "" then pyParseInt (pyStrip s) else none
  | _ => none

/-- `_should_generate_detailed`.  `.error ()` is the `AttributeError`
raised when a truthy non-string `reason` meets `.strip()`. -/
def shouldGenerateDetailed (event : List (String × JValue)) :
    Except Unit Bool :=
  if pyTruthy (dictGet event "generate_detailed_summary") then .ok true
  else
    match pyOr (dictGet event "request_context") (.obj []) with
    | .obj kvs =>
      match pyOr (dictGet kvs "reason") (.str "") with
      | .str s =>
        if pyLower (pyStrip s) ∈
            (["detail", "on_demand_summary", "manual_detail"] :
              List String) then
          match coerceRequestedAt (dictGet kvs "requested_at") with
          | some _ => .ok true
          | none => .ok false
        else .ok false
      | _ => .error ()
    | _ => .ok false

/-- The condition under which the code takes the detail path, stated
declaratively: a truthy flag alone, or a dict request context whose
effective reason normalizes into the allowed set and whose
`requested_at` coerces to an integer. -/
def detailConditions (event : List (String × JValue)) : Prop :=
  pyTruthy (dictGet event "generate_detailed_summary") = true ∨
  ∃ kvs s,
    pyOr (dictGet event "request_context") (.obj []) = .obj kvs ∧
    pyOr (dictGet kvs "reason") (.str "") = .str s ∧
    pyLower (pyStrip s) ∈
      (["detail", "on_demand_summary", "manual_detail"] : List String) ∧
    (coerceRequestedAt (dictGet kvs "requested_at")).isSome = true

/-! ## Dispatcher: `_fetch_feed_entries` (C10) -/

/-- An XML element as `xml.etree.ElementTree` exposes it: tag, attributes,
text, children. -/
inductive XmlElem where
  | mk (tag : String) (attrs : List (String × String)) (text : Option String)
      (children : List XmlElem)

def tagOf : XmlElem → String
  | .mk t _ _ _ => t

def attrsOf : XmlElem → List (String × String)
  | .mk _ a _ _ => a

def textOf : XmlElem → Option String
  | .mk _ _ x _ => x

def childrenOf : XmlElem → List XmlElem
  | .mk _ _ _ cs => cs

mutual
/-- Document order (`elem.iter()`): the element, then its subtrees. -/
def preorder : XmlElem → List XmlElem
  | .mk t a x cs => .mk t a x cs :: preorderList cs

def preorderList : List XmlElem → List XmlElem
  | [] => []
  | e :: rest => preorder e ++ preorderList rest
end

/-- All proper descendants (`.//` search space). -/
def descendants (e : XmlElem) : List XmlElem := preorderList (childrenOf e)

def ATOM_NS : String := "\x7bhttp://www.w3.org/2005/Atom\x7d"

def RDF_NS : String := "\x7bhttp://www.w3.org/1999/02/22-rdf-syntax-ns#\x7d"

/-- `tag.split("\x7d")[-1].lower()`. -/
def tagLocalLower (tag : String) : String :=
  pyLower (String.mk ((pySplitChar (Char.ofNat 125) tag.data).getLastD []))

/-- `_child_text`: first direct child with the given local name and
nonblank text, stripped. -/
def childTextAux : List XmlElem → String → Option String
  | [], _ => none
  | c :: rest, localName =>
    if tagLocalLower (tagOf c) = localName ∧
        pyStrip ((textOf c).getD "") ≠ "" then
      some (pyStrip ((textOf c).getD ""))
    else childTextAux rest localName

def childText (e : XmlElem) (localName : String) : Option String :=
  childTextAux (childrenOf e) localName

/-- `elem.findtext(tag)` over direct children. -/
def findtextAux : List XmlElem → String → Option String
  | [], _ => none
  | c :: rest, t =>
    if tagOf c = t then some ((textOf c).getD "") else findtextAux rest t

def findtext (e : XmlElem) (t : String) : Option String :=
  findtextAux (childrenOf e) t

/-- First `\x7batom\x7dlink` child with a truthy `href`, stripped
(`_item_link`). -/
def firstAtomHrefStripped : List XmlElem → Option String
  | [] => none
  | c :: rest =>
    if tagOf c = ATOM_NS ++ "link" then
      match (attrsOf c).lookup "href" with
      | some href =>
        if href ≠ "" then some (pyStrip href) else firstAtomHrefStripped rest
      | none => firstAtomHrefStripped rest
    else firstAtomHrefStripped rest

/-- Same but unstripped (Atom-entry loop of `_fetch_feed_entries`). -/
def firstAtomHref : List XmlElem → Option String
  | [] => none
  | c :: rest =>
    if tagOf c = ATOM_NS ++ "link" then
      match (attrsOf c).lookup "href" with
      | some href =>
        if href ≠ "" then some href else firstAtomHref rest
      | none => firstAtomHref rest
    else firstAtomHref rest

/-- First attribute whose local name is `about`/`resource`, value
stripped (`_item_link` tail). -/
def firstAboutResource : List (String × String) → Option String
  | [] => none
  | (k, v) :: rest =>
    if tagLocalLower k = "about" ∨ tagLocalLower k = "resource" then
      some (pyStrip v)
    else firstAboutResource rest

/-- First RDF-namespaced `about`/`resource` attribute, raw value (RDF
entry loop). -/
def firstRdfAboutResource : List (String × String) → Option String
  | [] => none
  | (k, v) :: rest =>
    if RDF_NS.data.isPrefixOf k.data ∧
        (tagLocalLower k = "about" ∨ tagLocalLower k = "resource") then
      some v
    else firstRdfAboutResource rest

/-- `_iter_items`: `.//item` matches first, then any element (including
the root) whose lowered local name is `item` and which the first pass
did not yield. -/
def iterItems (root : XmlElem) : List XmlElem :=
  (descendants root).filter (fun e => decide (tagOf e = "item")) ++
  ((if tagLocalLower (tagOf root) = "item" then [root] else []) ++
    (descendants root).filter (fun e =>
      decide (tagLocalLower (tagOf e) = "item" ∧ ¬ tagOf e = "item")))

def itemLink (e : XmlElem) : Option String :=
  match childText e "link" with
  | some l => some l
  | none =>
    match firstAtomHrefStripped (childrenOf e) with
    | some h => some h
    | none =>
      match childText e "guid" with
      | some g => some g
      | none => firstAboutResource (attrsOf e)

def itemPublished (e : XmlElem) : Option String :=
  match childText e "pubdate" with
  | some p => some p
  | none =>
    match childText e "dc:date" with
    | some p => some p
    | none =>
      match childText e "published" with
      | some p => some p
      | none => childText e "updated"

/-- Python `a or b` on optional strings. -/
def pyOrOptStr (a b : Option String) : Option String :=
  match a with
  | some s => if s ≠ "" then some s else b
  | none => b

/-- The `(link, title, published)` triples the RSS item loop feeds to
`_add`. -/
def phase1Cands (root : XmlElem) :
    List (Option String × Option String × Option String) :=
  (iterItems root).map fun e => (itemLink e, childText e "title",
    itemPublished e)

/-- The triples the Atom `entry` loop feeds to `_add`. -/
def phase2Cands (root : XmlElem) :
    List (Option String × Option String × Option String) :=
  ((descendants root).filter
    (fun e => decide (tagOf e = ATOM_NS ++ "entry"))).map fun e =>
    (firstAtomHref (childrenOf e),
     findtext e (ATOM_NS ++ "title"),
     pyOrOptStr (findtext e (ATOM_NS ++ "published"))
       (findtext e (ATOM_NS ++ "updated")))

/-- The triples the RDF `entry` fallback loop feeds to `_add`. -/
def phase3Cands (root : XmlElem) :
    List (Option String × Option String × Option String) :=
  ((preorder root).filter
    (fun e => decide (tagLocalLower (tagOf e) = "entry"))).map fun e =>
    ((match firstRdfAboutResource (attrsOf e) with
      | some v => if v ≠ "" then some v else childText e "link"
      | none => childText e "link"),
     childText e "title",
     pyOrOptStr (childText e "published")
       (pyOrOptStr (childText e "updated")
         (pyOrOptStr (childText e "pubdate") (childText e "dc:date"))))

/-- `_add`: skip falsy or already-seen (stripped) links, else append the
entry and record the link.  `parseDT` abstracts `_parse_datetime`. -/
def addEntry (parseDT : String → Option String)
    (st : List FeedEntry × List String)
    (cand : Option String × Option String × Option String) :
    List FeedEntry × List String :=
  match cand.1 with
  | none => st
  | some l0 =>
    if l0 = "" then st
    else if pyStrip l0 = "" ∨ pyStrip l0 ∈ st.2 then st
    else (st.1 ++ [⟨pyStrip l0,
        (match cand.2.1 with
         | some t => if t ≠ "" then pyStrip t else ""
         | none => ""),
        (match cand.2.2 with
         | some p =>
           if p ≠ "" then
             match parseDT p with
             | some d => if d ≠ "" then some d else none
             | none => none
           else none
         | none => none)⟩],
      st.2 ++ [pyStrip l0])

/-- One `_add` loop with the post-add `len(entries) >= limit` check. -/
def runAddLoop (parseDT : String → Option String) (limit : Nat) :
    List FeedEntry × List String →
      List (Option String × Option String × Option String) →
      List FeedEntry × List String
  | st, [] => st
  | st, c :: rest =>
    if limit ≤ (addEntry parseDT st c).1.length then addEntry parseDT st c
    else runAddLoop parseDT limit (addEntry parseDT st c) rest

/-- The `if not entries:` RDF fallback after the Atom loop. -/
def feedPhase23 (parseDT : String → Option String) (limit : Nat)
    (st : List FeedEntry × List String) (root : XmlElem) : List FeedEntry :=
  if st.1 = [] then (runAddLoop parseDT limit st (phase3Cands root)).1
  else st.1

/-- `_fetch_feed_entries` after the XML parse succeeded. -/
def fetchFeedEntries (parseDT : String → Option String) (limit : Nat)
    (root : XmlElem) : List FeedEntry :=
  if limit ≤ (runAddLoop parseDT limit ([], []) (phase1Cands root)).1.length
  then (runAddLoop parseDT limit ([], []) (phase1Cands root)).1
  else
    feedPhase23 parseDT limit
      (runAddLoop parseDT limit
        (runAddLoop parseDT limit ([], []) (phase1Cands root))
        (phase2Cands root)) root

/-! ## Collector: `_extract_bbc_article` (C9) -/

/-- Case-insensitive literal match, returning the rest of the input. -/
def matchLitCi : List Char → List Char → Option (List Char)
  | [], s => some s
  | _ :: _, [] => none
  | pc :: prest, c :: rest =>
    if pyLowerChar c = pyLowerChar pc then matchLitCi prest rest else none

/-- Single-character class match. -/
def matchCls (p : Char → Bool) : List Char → Option (List Char)
  | [] => none
  | c :: rest => if p c then some rest else none

/-- Greedy-quantifier backtracking: try `minN + j + 1` repetitions first,
down to `minN`. -/
def greedyDesc {α : Type} (k : Nat → Option α) (minN : Nat) : Nat → Option α
  | 0 => k minN
  | j + 1 =>
    match k (minN + j + 1) with
    | some r => some r
    | none => greedyDesc k minN j

/-- `[class]{minN,}` greedy with backtracking into the continuation. -/
def matchGreedy {α : Type} (p : Char → Bool) (minN : Nat) (s : List Char)
    (k : List Char → Option α) : Option α :=
  if (s.takeWhile p).length < minN then none
  else greedyDesc (fun n => k (s.drop n)) minN ((s.takeWhile p).length - minN)

/-- Lazy-quantifier matching: try `n` repetitions, then `n + 1`, … -/
def lazyAsc {α : Type} (k : Nat → Option α) : Nat → Nat → Option α
  | n, 0 => k n
  | n, j + 1 =>
    match k n with
    | some r => some r
    | none => lazyAsc k (n + 1) j

def isQuoteCh (c : Char) : Bool := c = '"' || c = Char.ofNat 39

/-- One attempt of `BBC_TEXT_BLOCK_RE` at the head of `s`
(`<div[^>]+data-component=["…']text-block["…'][^>]*>(.*?)</div>` with
IGNORECASE and DOTALL): returns the captured group and the rest. -/
def bbcMatchAt (s : List Char) : Option (List Char × List Char) :=
  match matchLitCi "<div".data s with
  | none => none
  | some s1 =>
    matchGreedy (fun c => decide (c ≠ '>')) 1 s1 (fun s2 =>
      match matchLitCi "data-component=".data s2 with
      | none => none
      | some s3 =>
        match matchCls isQuoteCh s3 with
        | none => none
        | some s4 =>
          match matchLitCi "text-block".data s4 with
          | none => none
          | some s5 =>
            match matchCls isQuoteCh s5 with
            | none => none
            | some s6 =>
              matchGreedy (fun c => decide (c ≠ '>')) 0 s6 (fun s7 =>
                match s7 with
                | '>' :: s8 =>
                  lazyAsc (fun n =>
                    match matchLitCi "</div>".data (s8.drop n) with
                    | none => none
                    | some s9 => some (s8.take n, s9)) 0 s8.length
                | _ => none))

/-- `re.findall`: leftmost non-overlapping matches, resuming after each
match.  The fuel `length + 1` is always sufficient since every step
consumes at least one character. -/
def bbcFindallAux : Nat → List Char → List (List Char)
  | 0, _ => []
  | fuel + 1, s =>
    match bbcMatchAt s with
    | some (g, rest) => g :: bbcFindallAux fuel rest
    | none =>
      match s with
      | [] => []
      | _ :: t => bbcFindallAux fuel t

def bbcFindall (html : String) : List String :=
  (bbcFindallAux (html.data.length + 1) html.data).map String.mk

/-- `_html_to_text`: payloads without both `<` and `>` are returned
verbatim; `oracle` abstracts the `HTMLParser`-based branch (including
its exception fallback). -/
def htmlToText (oracle : String → String) (payload : String) : String :=
  if '<' ∉ payload.data ∨ '>' ∉ payload.data then payload
  else oracle payload

def joinStrSep (sep : String) : List String → String
  | [] => ""
  | [x] => x
  | x :: y :: rest => x ++ sep ++ joinStrSep sep (y :: rest)

/-- `re.sub(r"Share this page.*", "", …, IGNORECASE | DOTALL)`: truncate
at the first case-insensitive occurrence of the marker. -/
def cutFromCi (pat : List Char) : List Char → List Char
  | [] => []
  | c :: rest =>
    if pat.isPrefixOf ((c :: rest).map pyLowerChar) then []
    else c :: cutFromCi pat rest

/-- The adjacent-line dedup loop of `_extract_bbc_article` (`acc` holds
the cleaned lines in reverse). -/
def dedupLinesAux : List String → List String → List String
  | acc, [] => acc.reverse
  | acc, l :: rest =>
    if pyStrip l = "" then dedupLinesAux ("" :: acc) rest
    else
      match acc with
      | [] => dedupLinesAux (pyStrip l :: acc) rest
      | last :: _ =>
        if pyStrip l = last then dedupLinesAux acc rest
        else dedupLinesAux (pyStrip l :: acc) rest

/-- `_extract_bbc_article`. -/
def extractBbcArticle (oracle : String → String) (html : String) :
    Option String :=
  if bbcFindall html = [] then none
  else
    if ((bbcFindall html).map (htmlToText oracle)).filter
        (fun p => decide (p ≠ "")) = [] then none
    else
      if pyStrip (joinStrSep "\n" (dedupLinesAux []
          (pySplitlines (String.mk (cutFromCi "share this page".data
            (joinStrSep "\n\n"
              (((bbcFindall html).map (htmlToText oracle)).filter
                (fun p => decide (p ≠ "")))).data))))) = "" then none
      else some (pyStrip (joinStrSep "\n" (dedupLinesAux []
          (pySplitlines (String.mk (cutFromCi "share this page".data
            (joinStrSep "\n\n"
              (((bbcFindall html).map (htmlToText oracle)).filter
                (fun p => decide (p ≠ "")))).data))))))

/-! ## Content API: on-demand detail requests (C4) -/

/-- The fields of a stored cluster record that the detail-request path
reads. -/
structure DetailRecord where
  summary_long : String
  detail_status : Option String
  detail_requested_at : Option Int
  detail_expires_at : Option Int
deriving DecidableEq

/-- Environment of one request: clock, timeouts, and whether the worker
ARN and an article link are available. -/
structure DetailConfig where
  now : Int
  pendingTimeout : Int
  ttl : Int
  armOk : Bool
  linkOk : Bool
deriving DecidableEq

/-- What one request did: HTTP status, body status string, worker
invocations performed, whether the pending transition was written, and
whether a timeout failure was written. -/
structure DetailOutcome where
  statusCode : Nat
  status : Option String
  invocations : Nat
  wrotePending : Bool
  wroteFailure : Bool
deriving DecidableEq

structure StartResult where
  started : Bool
  invocations : Nat
  wrotePending : Bool
deriving DecidableEq

/-- `_clean_optional_str`. -/
def cleanOptStr : Option String → Option String
  | none => none
  | some s => if pyStrip s = "" then none else some (pyStrip s)

/-- `_is_detail_expired`. -/
def isDetailExpired (cfg : DetailConfig) (r : DetailRecord) : Prop :=
  cfg.ttl > 0 ∧ ∃ e, r.detail_expires_at = some e ∧ e ≤ cfg.now

instance (cfg : DetailConfig) (r : DetailRecord) :
    Decidable (isDetailExpired cfg r) := by
  unfold isDetailExpired
  exact inferInstance

/-- `_start_detail_generation`: raises without worker ARN or article
link; the conditional `SET detail_status = :pending` with
`attribute_not_exists(detail_status) OR detail_status <> :pending` fails
exactly against a store whose status is already `pending`
(`writeStatus`), in which case nothing is written and the worker is not
invoked. -/
def startDetailGeneration (armOk linkOk : Bool)
    (writeStatus : Option String) : Except Unit StartResult :=
  if ¬ armOk = true then .error ()
  else if ¬ linkOk = true then .error ()
  else if writeStatus = some "pending" then .ok ⟨false, 0, false⟩
  else .ok ⟨true, 1, true⟩

/-- The tail of `_handle_detail_request` after the early returns: ARN
check, `_start_detail_generation`, and the started/already-pending
responses. -/
def afterPendingChecks (cfg : DetailConfig) (writeStatus : Option String)
    (wroteFailure : Bool) (hadSummary : Bool) : DetailOutcome :=
  if ¬ cfg.armOk = true then ⟨500, none, 0, false, wroteFailure⟩
  else
    match startDetailGeneration cfg.armOk cfg.linkOk writeStatus with
    | .error _ => ⟨500, none, 0, false, wroteFailure⟩
    | .ok res =>
      if ¬ res.started = true then
        ⟨202, some "pending", res.invocations, res.wrotePending,
          wroteFailure⟩
      else
        ⟨202, some (if hadSummary then "refreshing" else "started"),
          res.invocations, res.wrotePending, wroteFailure⟩

/-- `_handle_detail_request` on a found record `r` (read snapshot);
`writeStatus` is the stored `detail_status` at the moment the
conditional write executes. -/
def handleDetailRequest (cfg : DetailConfig) (r : DetailRecord)
    (writeStatus : Option String) : DetailOutcome :=
  if pyStrip r.summary_long ≠ "" ∧
      cleanOptStr r.detail_status = some "ready" ∧
      ¬ isDetailExpired cfg r then
    ⟨200, some "ready", 0, false, false⟩
  else if cleanOptStr r.detail_status = some "pending" then
    match r.detail_requested_at with
    | some t =>
      if cfg.pendingTimeout > 0 ∧ t + cfg.pendingTimeout ≤ cfg.now then
        afterPendingChecks cfg writeStatus true
          (pyStrip r.summary_long ≠ "")
      else ⟨202, some "pending", 0, false, false⟩
    | none => ⟨202, some "pending", 0, false, false⟩
  else
    afterPendingChecks cfg writeStatus false (pyStrip r.summary_long ≠ "")

/-! ## Summarizer: `_parse_summary_text` (C2) -/

/-- Exact (case-sensitive) literal match. -/
def matchLit : List Char → List Char → Option (List Char)
  | [], s => some s
  | _ :: _, [] => none
  | pc :: prest, c :: rest =>
    if c = pc then matchLit prest rest else none

def isJsonWs (c : Char) : Bool :=
  c = ' ' || c = '\t' || c = '\n' || c = '\r'

/-- One escape character inside a JSON string. -/
def jsonEscape : Char → Option Char
  | '"' => some '"'
  | '\\' => some '\\'
  | '/' => some '/'
  | 'b' => some (Char.ofNat 8)
  | 'f' => some (Char.ofNat 12)
  | 'n' => some '\n'
  | 'r' => some '\r'
  | 't' => some '\t'
  | _ => none

/-- JSON string body after the opening quote: contents and rest. -/
def jsonStringAux : List Char → Except Unit (List Char × List Char)
  | [] => .error ()
  | '"' :: rest => .ok ([], rest)
  | '\\' :: 'u' :: h1 :: h2 :: h3 :: h4 :: r =>
    (match hexVal h1, hexVal h2, hexVal h3, hexVal h4 with
     | some a, some b, some c, some d =>
       (match jsonStringAux r with
        | .ok (cs, rest) =>
          .ok (Char.ofNat (((a * 16 + b) * 16 + c) * 16 + d) :: cs, rest)
        | .error e => .error e)
     | _, _, _, _ => .error ())
  | '\\' :: e :: r =>
    (match jsonEscape e with
     | some c =>
       (match jsonStringAux r with
        | .ok (cs, rest) => .ok (c :: cs, rest)
        | .error er => .error er)
     | none => .error ())
  | c :: rest =>
    (match jsonStringAux rest with
     | .ok (cs, r) => .ok (c :: cs, r)
     | .error e => .error e)

def jnegate : JValue → JValue
  | .int n => .int (-n)
  | .float q => .float (-q)
  | v => v

def jsonExpDigits (q : Rat) (sgn : Int) (s : List Char) :
    Except Unit (JValue × List Char) :=
  if s.takeWhile isAsciiDigit = [] then .error ()
  else .ok (.float (q * (10 : Rat) ^
      (sgn * (digitsToNat (s.takeWhile isAsciiDigit) : Int))),
    s.drop (s.takeWhile isAsciiDigit).length)

def jsonExpPart (q : Rat) : List Char → Except Unit (JValue × List Char)
  | _ :: '+' :: r => jsonExpDigits q 1 r
  | _ :: '-' :: r => jsonExpDigits q (-1) r
  | _ :: r => jsonExpDigits q 1 r
  | [] => .error ()

def jsonAfterFrac (q : Rat) (s : List Char) :
    Except Unit (JValue × List Char) :=
  match s with
  | 'e' :: _ => jsonExpPart q s
  | 'E' :: _ => jsonExpPart q s
  | _ => .ok (.float q, s)

def jsonAfterInt (n : Nat) (s : List Char) :
    Except Unit (JValue × List Char) :=
  match s with
  | '.' :: r =>
    if r.takeWhile isAsciiDigit = [] then .error ()
    else jsonAfterFrac ((n : Rat) +
        (digitsToNat (r.takeWhile isAsciiDigit) : Rat) /
          (10 : Rat) ^ (r.takeWhile isAsciiDigit).length)
      (r.drop (r.takeWhile isAsciiDigit).length)
  | 'e' :: _ => jsonExpPart (n : Rat) s
  | 'E' :: _ => jsonExpPart (n : Rat) s
  | _ => .ok (.int (n : Int), s)

def jsonNumMag (s : List Char) : Except Unit (JValue × List Char) :=
  if s.takeWhile isAsciiDigit = [] then .error ()
  else jsonAfterInt (digitsToNat (s.takeWhile isAsciiDigit))
    (s.drop (s.takeWhile isAsciiDigit).length)

def jsonNumber : List Char → Except Unit (JValue × List Char)
  | '-' :: r =>
    (match jsonNumMag r with
     | .ok (v, rest) => .ok (jnegate v, rest)
     | .error e => .error e)
  | r => jsonNumMag r

mutual
/-- JSON value parser (recursive descent, leading whitespace already
removed from `t`; `fuel` bounds nesting and is chosen generously by
`jsonLoads`). -/
def jsonValueCore : Nat → List Char → Except Unit (JValue × List Char)
  | 0, _ => .error ()
  | fuel + 1, t =>
    match t with
    | '\x7b' :: rest =>
      (match jsonObjectBody fuel rest with
       | .ok (kvs, r) => .ok (.obj kvs, r)
       | .error e => .error e)
    | '[' :: rest =>
      (match jsonArrayBody fuel rest with
       | .ok (xs, r) => .ok (.arr xs, r)
       | .error e => .error e)
    | '"' :: rest =>
      (match jsonStringAux rest with
       | .ok (cs, r) => .ok (.str (String.mk cs), r)
       | .error e => .error e)
    | 't' :: 'r' :: 'u' :: 'e' :: r => .ok (.bool true, r)
    | 'f' :: 'a' :: 'l' :: 's' :: 'e' :: r => .ok (.bool false, r)
    | 'n' :: 'u' :: 'l' :: 'l' :: r => .ok (.null, r)
    | t2 => jsonNumber t2

def jsonObjectBody : Nat → List Char →
    Except Unit (List (String × JValue) × List Char)
  | 0, _ => .error ()
  | fuel + 1, s =>
    match s.dropWhile isJsonWs with
    | '\x7d' :: r => .ok ([], r)
    | t => jsonMembers fuel t

def jsonMembers : Nat → List Char →
    Except Unit (List (String × JValue) × List Char)
  | 0, _ => .error ()
  | fuel + 1, s =>
    match s.dropWhile isJsonWs with
    | '"' :: rest =>
      (match jsonStringAux rest with
       | .error e => .error e
       | .ok (key, r1) =>
         match r1.dropWhile isJsonWs with
         | ':' :: r2 =>
           (match jsonValueCore fuel (r2.dropWhile isJsonWs) with
            | .error e => .error e
            | .ok (v, r3) =>
              match r3.dropWhile isJsonWs with
              | ',' :: r4 =>
                (match jsonMembers fuel r4 with
                 | .ok (kvs, r5) => .ok ((String.mk key, v) :: kvs, r5)
                 | .error e => .error e)
              | '\x7d' :: r4 => .ok ([(String.mk key, v)], r4)
              | _ => .error ())
         | _ => .error ())
    | _ => .error ()

def jsonArrayBody : Nat → List Char →
    Except Unit (List JValue × List Char)
  | 0, _ => .error ()
  | fuel + 1, s =>
    match s.dropWhile isJsonWs with
    | ']' :: r => .ok ([], r)
    | t => jsonItems fuel t

def jsonItems : Nat → List Char → Except Unit (List JValue × List Char)
  | 0, _ => .error ()
  | fuel + 1, s =>
    match jsonValueCore fuel (s.dropWhile isJsonWs) with
    | .error e => .error e
    | .ok (v, r1) =>
      match r1.dropWhile isJsonWs with
      | ',' :: r2 =>
        (match jsonItems fuel r2 with
         | .ok (xs, r3) => .ok (v :: xs, r3)
         | .error e => .error e)
      | ']' :: r2 => .ok ([v], r2)
      | _ => .error ()
end

/-- `json.loads`: a full-document parse, rejecting trailing garbage. -/
def jsonLoads (s : String) : Except Unit JValue :=
  match jsonValueCore (4 * s.data.length + 8) (s.data.dropWhile isJsonWs) with
  | .error e => .error e
  | .ok (v, rest) =>
    if rest.dropWhile isJsonWs = [] then .ok v else .error ()

/-- Closing step of the lazy group of `JSON_FENCE_RE`: at offset `n`
into the body, require `\x7d`, optional whitespace and the closing
fence. -/
def fenceClose (s8 : List Char) (n : Nat) :
    Option (List Char × List Char) :=
  if (s8.drop n).take 1 = ['\x7d'] then
    match matchLit "```".data
        (((s8.drop n).drop 1).dropWhile pyIsSpace) with
    | some r10 => some ('\x7b' :: (s8.take n ++ ['\x7d']), r10)
    | none => none
  else none

/-- The tail of `JSON_FENCE_RE` after the opening fence: optional `json`,
whitespace, then the lazily captured `\x7b…\x7d` group and the closing
fence. -/
def fenceBody (s2 : List Char) : Option (List Char × List Char) :=
  if (s2.dropWhile pyIsSpace).take 1 = ['\x7b'] then
    lazyAsc (fenceClose ((s2.dropWhile pyIsSpace).drop 1)) 0
      ((s2.dropWhile pyIsSpace).drop 1).length
  else none

/-- One attempt of `JSON_FENCE_RE` at the head of `s`. -/
def fenceMatchAt (s : List Char) : Option (List Char × List Char) :=
  match matchLit "```".data s with
  | none => none
  | some s1 =>
    match matchLit "json".data s1 with
    | some s2 =>
      (match fenceBody s2 with
       | some r => some r
       | none => fenceBody s1)
    | none => fenceBody s1

def fenceFindAllAux : Nat → List Char → List (List Char)
  | 0, _ => []
  | fuel + 1, s =>
    match fenceMatchAt s with
    | some (g, rest) => g :: fenceFindAllAux fuel rest
    | none =>
      match s with
      | [] => []
      | _ :: t => fenceFindAllAux fuel t

/-- The fallback balanced-brace scan of `_find_json_candidates`
(`cur` holds the characters after the opening brace, reversed). -/
def scanBalanced : List Char → Nat → List Char → List (List Char) →
    List (List Char)
  | [], _, _, acc => acc.reverse
  | c :: rest, depth, cur, acc =>
    if c = '\x7b' then
      if depth = 0 then scanBalanced rest 1 [] acc
      else scanBalanced rest (depth + 1) ('\x7b' :: cur) acc
    else if c = '\x7d' then
      if depth = 0 then scanBalanced rest 0 cur acc
      else if depth = 1 then
        scanBalanced rest 0 []
          (('\x7b' :: (cur.reverse ++ ['\x7d'])) :: acc)
      else scanBalanced rest (depth - 1) ('\x7d' :: cur) acc
    else
      if depth = 0 then scanBalanced rest depth cur acc
      else scanBalanced rest depth (c :: cur) acc

/-- `_find_json_candidates`. -/
def findJsonCandidates (text : String) : List String :=
  match fenceFindAllAux (text.data.length + 1) text.data with
  | [] =>
    (scanBalanced text.data 0 [] []).map fun l => String.mk (pyStripList l)
  | cs => cs.map fun l => String.mk (pyStripList l)

def SUMMARY_KEYWORDS : List String :=
  ["summary_long", "summary long", "long summary", "summary (500",
   "summary (120"]

def DIFF_KEYWORDS : List String :=
  ["diff_points", "diff points", "differences", "diffs"]

/-- `any(keyword in hdr for keyword in kws)`. -/
def hdrHasKeyword (kws : List String) (hdr : String) : Bool :=
  kws.any fun k => listContainsSub hdr.data k.data

/-- `MARKDOWN_SECTION_RE.match(line)`: the closing `**` must sit at the
first `*` after the opening fence, so the match is deterministic.
Returns the raw header segment and the post-colon remainder. -/
def mdSectionMatch (line : List Char) : Option (List Char × List Char) :=
  match matchLit "**".data line with
  | none => none
  | some s2 =>
    match s2.findIdx? (fun c => decide (c = '*')) with
    | none => none
    | some j =>
      if 1 ≤ j ∧ (s2.drop (j + 1)).take 1 = ['*'] then
        (match (s2.drop (j + 2)).dropWhile pyIsSpace with
         | c :: r =>
           if c = ':' ∨ c = '：' then
             some (s2.take j, r.dropWhile pyIsSpace)
           else none
         | [] => none)
      else none

def isPlainHdrChar (c : Char) : Bool :=
  isAsciiAlpha c || c = ' ' || c = '_' || c = '(' || c = ')' || c = '-'

/-- The lazy part of `PLAIN_SECTION_RE`: before consuming each further
header character, try to close the header at a colon. -/
def plainAux (acc : List Char) (s : List Char) :
    Option (List Char × List Char) :=
  match s.dropWhile pyIsSpace with
  | c2 :: r2 =>
    if c2 = ':' ∨ c2 = '：' then some (acc.reverse, r2.dropWhile pyIsSpace)
    else
      match s with
      | c3 :: r3 =>
        if isPlainHdrChar c3 then plainAux (c3 :: acc) r3 else none
      | [] => none
  | [] => none
termination_by s.length
decreasing_by
  simp only [List.length_cons]
  omega

/-- `PLAIN_SECTION_RE.match(line)`. -/
def plainSectionMatch (line : List Char) :
    Option (List Char × List Char) :=
  match line.dropWhile pyIsSpace with
  | c :: rest => if isAsciiAlpha c then plainAux [c] rest else none
  | [] => none

/-- `BULLET_PREFIX_RE.match`: the remainder after the bullet prefix, or
`none` when the line carries no bullet. -/
def bulletStrip (s : List Char) : Option (List Char) :=
  match s.dropWhile pyIsSpace with
  | c :: r =>
    if c = '-' ∨ c = '*' ∨ c = '・' ∨ c = '•' ∨ c = '●' ∨ c = '◎' ∨
        c = '◦' then
      some (r.dropWhile pyIsSpace)
    else
      if isAsciiDigit c then
        (match (c :: r).drop ((c :: r).takeWhile isAsciiDigit).length with
         | '.' :: r2 => some (r2.dropWhile pyIsSpace)
         | ')' :: r2 => some (r2.dropWhile pyIsSpace)
         | _ => none)
      else none
  | [] => none

/-- `dict` assignment preserving first-insertion order. -/
def dictSet (kvs : List (String × String)) (k v : String) :
    List (String × String) :=
  if (kvs.map Prod.fst).contains k then
    kvs.map fun kv => if kv.1 = k then (k, v) else kv
  else kvs ++ [(k, v)]

def startsWithBullet (s : String) : Bool :=
  match s.data with
  | c :: _ =>
    decide (c = '-') || decide (c = '*') || decide (c = '・') ||
    decide (c = '•') || decide (c = '●') || decide (c = '◎') ||
    decide (c = '◦')
  | [] => false

/-- `_flush` of `_parse_structured_sections`. -/
def flushSection
    (st : List (String × String) × Option String × List String) :
    List (String × String) :=
  match st.2.1 with
  | none => st.1
  | some k => dictSet st.1 k (pyStrip (joinStrSep "\n"
      (st.2.2.filter fun l => decide (pyStrip l ≠ ""))))

def contAppend
    (st : List (String × String) × Option String × List String)
    (line : String) :
    List (String × String) × Option String × List String :=
  match st.2.1 with
  | none => st
  | some _ => (st.1, st.2.1, st.2.2 ++ [line])

/-- One loop iteration of `_parse_structured_sections` on the
`rstrip`-ed line. -/
def sectionStepLine
    (st : List (String × String) × Option String × List String)
    (line : String) :
    List (String × String) × Option String × List String :=
  match mdSectionMatch line.data with
  | some (hdrRaw, remRaw) =>
    (flushSection st, some (pyLower (pyStrip (String.mk hdrRaw))),
     if pyStrip (String.mk remRaw) ≠ "" then [pyStrip (String.mk remRaw)]
     else [])
  | none =>
    match plainSectionMatch line.data with
    | some (hdrRaw, remRaw) =>
      if ¬ startsWithBullet (pyStrip line) = true ∧
          hdrHasKeyword (SUMMARY_KEYWORDS ++ DIFF_KEYWORDS)
            (pyLower (pyStrip (String.mk hdrRaw))) = true then
        (flushSection st, some (pyLower (pyStrip (String.mk hdrRaw))),
         if pyStrip (String.mk remRaw) ≠ "" then
           [pyStrip (String.mk remRaw)]
         else [])
      else contAppend st line
    | none => contAppend st line

def sectionStep
    (st : List (String × String) × Option String × List String)
    (rawLine : String) :
    List (String × String) × Option String × List String :=
  sectionStepLine st (pyRStrip rawLine)

/-- `_parse_structured_sections`. -/
def parseStructuredSections (text : String) : List (String × String) :=
  flushSection ((pySplitlines text).foldl sectionStep ([], none, []))

/-- First section whose key contains one of the keywords. -/
def firstMatchingSection (kws : List String) :
    List (String × String) → Option String
  | [] => none
  | (k, v) :: rest =>
    if hdrHasKeyword kws (pyLower k) then some v
    else firstMatchingSection kws rest

/-- The line-cleaning loop of `_clean_summary_text`. -/
def cleanLinesAux : List String → List String
  | [] => []
  | l :: rest =>
    if pyStrip l = "" then cleanLinesAux rest
    else if (bulletStrip (pyStrip l).data).isSome then cleanLinesAux rest
    else if "summary".data.isPrefixOf (pyLower (pyStrip l)).data ∨
        "diff".data.isPrefixOf (pyLower (pyStrip l)).data then
      cleanLinesAux rest
    else if (mdSectionMatch (pyStrip l).data).isSome then cleanLinesAux rest
    else if pyStrip (String.mk
        ((bulletStrip (pyStrip l).data).getD (pyStrip l).data)) = "" then
      cleanLinesAux rest
    else
      pyStrip (String.mk
        ((bulletStrip (pyStrip l).data).getD (pyStrip l).data)) ::
        cleanLinesAux rest

def dedupKeepOrderAux (seen : List String) : List String → List String
  | [] => []
  | l :: rest =>
    if seen.contains l then dedupKeepOrderAux seen rest
    else l :: dedupKeepOrderAux (l :: seen) rest

/-- Generic anchored `re.sub(pattern, "", …)` scan: drop each match and
continue after it. -/
def subAll (m : List Char → Option (List Char)) :
    Nat → List Char → List Char
  | 0, s => s
  | fuel + 1, s =>
    match m s with
    | some r => subAll m fuel r
    | none =>
      match s with
      | [] => []
      | c :: t => c :: subAll m fuel t

/-- `\s*\*\*\s*[:：]\s*` — tail of the bold summary-header pattern. -/
def sumHdr1Tail (s4 : List Char) : Option (List Char) :=
  match matchLit "**".data (s4.dropWhile pyIsSpace) with
  | none => none
  | some s5 =>
    match s5.dropWhile pyIsSpace with
    | c :: r =>
      if c = ':' ∨ c = '：' then some (r.dropWhile pyIsSpace) else none
    | [] => none

/-- `\*\*\s*summary(?:\s+long)?\s*\*\*\s*[:：]\s*` (IGNORECASE). -/
def sumHdr1Match (s : List Char) : Option (List Char) :=
  match matchLit "**".data s with
  | none => none
  | some s1 =>
    match matchLitCi "summary".data (s1.dropWhile pyIsSpace) with
    | none => none
    | some s3 =>
      if s3.takeWhile pyIsSpace ≠ [] then
        match matchLitCi "long".data (s3.dropWhile pyIsSpace) with
        | some s4 =>
          (match sumHdr1Tail s4 with
           | some r => some r
           | none => sumHdr1Tail s3)
        | none => sumHdr1Tail s3
      else sumHdr1Tail s3

/-- `^\s*summary(?:_long|\s+long)?[^:：]*[:：]\s*` (IGNORECASE): the
optional parts and `[^:：]*` together reach exactly the first colon. -/
def sumHdr2Strip (s : List Char) : List Char :=
  match matchLitCi "summary".data (s.dropWhile pyIsSpace) with
  | none => s
  | some s3 =>
    match s3.findIdx? (fun c => decide (c = ':') || decide (c = '：')) with
    | none => s
    | some i => (s3.drop (i + 1)).dropWhile pyIsSpace

/-- The section of `text` whose header matches a summary keyword, if
any; otherwise `text` itself. -/
def selectedSummaryText (text : String) : String :=
  match firstMatchingSection SUMMARY_KEYWORDS
      (parseStructuredSections text) with
  | some v => v
  | none => text

/-- The intermediate `text` of `_clean_summary_text` after section
selection, line cleaning and dedup. -/
def cleanedBody (text : String) : String :=
  if cleanLinesAux (pySplitlines (selectedSummaryText text)) = [] then
    selectedSummaryText text
  else
    joinStrSep "\n" (dedupKeepOrderAux []
      (cleanLinesAux (pySplitlines (selectedSummaryText text))))

/-- `_clean_summary_text` on an already stripped, nonempty `text`. -/
def cleanSummaryCore (text : String) : String :=
  pyStrip (String.mk (sumHdr2Strip (subAll sumHdr1Match
    ((cleanedBody text).data.length + 1) (cleanedBody text).data)))

def cleanSummaryText (value : String) : String :=
  if pyStrip value = "" then "" else cleanSummaryCore (pyStrip value)

/-- `_extract_japanese_lines`. -/
def extractJapaneseLines (text : String) : String :=
  if text = "" then ""
  else
    if (((pySplitlines text).map pyStrip).filter
          (fun s => decide (s ≠ ""))).filter
        (fun s => containsJapanese s) ≠ [] then
      joinStrSep "\n" ((((pySplitlines text).map pyStrip).filter
          (fun s => decide (s ≠ ""))).filter
        (fun s => containsJapanese s))
    else pyStrip text

def parseDiffPointsList (pyStr : JValue → String) (xs : List JValue) :
    List String :=
  (xs.map fun item => pyStrip (pyStr item)).filter fun s => decide (s ≠ "")

/-- The line loop of `_parse_diff_points`. -/
def diffLinesAux : List String → List String
  | [] => []
  | l :: rest =>
    if pyStrip l = "" then diffLinesAux rest
    else
      if pyStrip (String.mk
          ((bulletStrip (pyStrip l).data).getD (pyStrip l).data)) ≠ "" ∧
          ((bulletStrip (pyStrip l).data).isSome = true ∨
            hdrHasKeyword DIFF_KEYWORDS (pyLower (pyStrip l)) = true) then
        pyStrip (String.mk
          ((bulletStrip (pyStrip l).data).getD (pyStrip l).data)) ::
          diffLinesAux rest
      else diffLinesAux rest

def diffSections (text : String) : List String :=
  diffLinesAux (pySplitlines
    (match firstMatchingSection DIFF_KEYWORDS
        (parseStructuredSections text) with
     | some v => v
     | none => text))

/-- `_parse_diff_points` on a string value. -/
def parseDiffPointsStr (pyStr : JValue → String) (value : String) :
    List String :=
  if pyStrip value = "" then []
  else
    if (pyStrip value).data.take 1 = ['['] then
      match jsonLoads (pyStrip value) with
      | .ok (.arr xs) => parseDiffPointsList pyStr xs
      | _ => diffSections (pyStrip value)
    else diffSections (pyStrip value)

inductive PyExc where
  | runtimeError
  | attributeError
  | indexError
deriving DecidableEq

def pickSummary2 (kvs : List (String × JValue)) : String :=
  match dictGet kvs "summary" with
  | .str s => if pyStrip s ≠ "" then pyStrip s else ""
  | _ => ""

/-- `_pick` over `summary_long` / `summary`. -/
def pickSummary (kvs : List (String × JValue)) : String :=
  match dictGet kvs "summary_long" with
  | .str s => if pyStrip s ≠ "" then pyStrip s else pickSummary2 kvs
  | _ => pickSummary2 kvs

/-- `_normalise_schema`.  A non-dict payload would hit `.get` and raise
`AttributeError`; a `diff_points` value that is neither string nor list
raises `RuntimeError` (the only exception the caller catches). -/
def normaliseSchema (pyStr : JValue → String) (data : JValue) :
    Except PyExc SummaryResult :=
  match data with
  | .obj kvs =>
    (match (kvs.lookup "diff_points").getD (.arr []) with
     | .str s =>
       .ok ⟨extractJapaneseLines (cleanSummaryText (pickSummary kvs)),
         parseDiffPointsStr pyStr s⟩
     | .arr xs =>
       .ok ⟨extractJapaneseLines (cleanSummaryText (pickSummary kvs)),
         parseDiffPointsList pyStr xs⟩
     | _ => .error .runtimeError)
  | _ => .error .attributeError

/-- The candidate loop of `_parse_summary_text`: JSON decode errors and
`RuntimeError` from the schema step skip to the next candidate; any
other exception propagates. -/
def trySummaryCandidates (pyStr : JValue → String) :
    List String → Except PyExc (Option SummaryResult)
  | [] => .ok none
  | c :: rest =>
    match jsonLoads c with
    | .error _ => trySummaryCandidates pyStr rest
    | .ok parsed =>
      match normaliseSchema pyStr parsed with
      | .ok r => .ok (some r)
      | .error .runtimeError => trySummaryCandidates pyStr rest
      | .error e => .error e

def fallbackFinish (pyStr : JValue → String) (text sectionText : String) :
    Except PyExc SummaryResult :=
  .ok ⟨extractJapaneseLines sectionText,
    if parseDiffPointsStr pyStr text = [] then []
    else parseDiffPointsStr pyStr text⟩

/-- The non-JSON fallback of `_parse_summary_text`; indexing
`text.splitlines()[0]` is the one partial operation. -/
def summaryFallback (pyStr : JValue → String) (text : String) :
    Except PyExc SummaryResult :=
  if cleanSummaryText text ≠ "" then
    fallbackFinish pyStr text (cleanSummaryText text)
  else if text ≠ "" then
    match pySplitlines text with
    | [] => .error .indexError
    | l :: _ =>
      if cleanSummaryText l ≠ "" then
        fallbackFinish pyStr text (cleanSummaryText l)
      else fallbackFinish pyStr text (pyTake text 600)
  else
    if cleanSummaryText "" ≠ "" then
      fallbackFinish pyStr text (cleanSummaryText "")
    else fallbackFinish pyStr text (pyTake text 600)

/-- `_parse_summary_text`.  `pyStr` abstracts Python `str()` on decoded
JSON values (used only inside `diff_points` handling). -/
def parseSummaryText (pyStr : JValue → String) (text : String) :
    Except PyExc SummaryResult :=
  match trySummaryCandidates pyStr (findJsonCandidates text) with
  | .error e => .error e
  | .ok (some r) => .ok r
  | .ok none => summaryFallback pyStr text

/-! # Theorems -/

/-! ### C1 -/

/-- C1 counterexample: with an empty article and a summaries dict whose
`summary_long` is empty but whose `diff_points` is `["x"]`, quality
enforcement returns the original dict, not the fallback — refuting
"returns the fixed fallback whenever the candidate summary is empty". -/
theorem enforceSummaryQuality_keeps_empty_summary_on_empty_article :
    enforceSummaryQuality "" (some ⟨"", ["x"]⟩) = ⟨"", ["x"]⟩ ∧
    (⟨"", ["x"]⟩ : SummaryResult) ≠ fallbackSummary := by
  constructor
  · rfl
  · simp [fallbackSummary]

/-- C1 (amended): the fallback is returned for the empty summaries dict,
and — provided the article is nonempty and the article and the stripped
summary agree on Japanese-script presence — whenever the lexical overlap
is below `max(1, tokenCount/6)` (in particular whenever the summary is
empty, since an empty summary never has overlap).  With an empty article,
the original dict is returned unchanged. -/
theorem enforceSummaryQuality_spec (article : String) (s : SummaryResult) :
    (enforceSummaryQuality article none = fallbackSummary) ∧
    (article ≠ "" →
      containsJapanese article =
        (pyStrip s.summary_long ≠ "" && containsJapanese (pyStrip s.summary_long)) →
      hasArticleOverlap article (pyStrip s.summary_long) = false →
      enforceSummaryQuality article (some s) = fallbackSummary) ∧
    (hasArticleOverlap article "" = false) ∧
    (article = "" → enforceSummaryQuality article (some s) = s) := by
  refine ⟨rfl, ?_, ?_, ?_⟩
  · intro hne hjp hov
    simp [enforceSummaryQuality, hne, hjp, hov]
  · simp [hasArticleOverlap]
  · intro h
    simp [enforceSummaryQuality, h]

/-- Witness for the amended C1 at concrete inputs. -/
theorem enforceSummaryQuality_spec_witness :
    enforceSummaryQuality "abc" (some ⟨"xyz", []⟩) = fallbackSummary ∧
    enforceSummaryQuality "" (some ⟨"xyz", []⟩) = ⟨"xyz", []⟩ :=
  ⟨(enforceSummaryQuality_spec "abc" ⟨"xyz", []⟩).2.1 (by decide) (by decide)
      (by decide),
   (enforceSummaryQuality_spec "" ⟨"xyz", []⟩).2.2.2 rfl⟩

/-! ### C7 -/

/-- C7: with `max_attempts = 4`, three consecutive 503s followed by a
successful response yield the final body, sleeping the base delay and then
doubling it (capped at 8 seconds) between attempts; a first response with
any non-retryable status propagates as an error after exactly one request
with no sleeps. -/
theorem requestWithRetry_spec :
    (∀ (resp : Nat → FetchOutcome) (body : String) (base : ℚ),
      resp 0 = .httpError 503 → resp 1 = .httpError 503 →
      resp 2 = .httpError 503 → resp 3 = .success body →
      requestWithRetry resp 4 base =
        ⟨.ok body, [base, min (base * 2) 8, min (min (base * 2) 8 * 2) 8], 4⟩) ∧
    (∀ (resp : Nat → FetchOutcome) (base : ℚ) (status : Nat),
      status ∉ RETRYABLE_STATUS_CODES → resp 0 = .httpError status →
      requestWithRetry resp 4 base = ⟨.error (.http status), [], 1⟩) := by
  constructor
  · intro resp body base h0 h1 h2 h3
    simp [requestWithRetry, requestWithRetryAux, h0, h1, h2, h3,
      RETRYABLE_STATUS_CODES]
  · intro resp base status hst h0
    simp [requestWithRetry, requestWithRetryAux, h0, hst]

/-- Witness for C7 at a concrete outcome sequence and base delay 0.5. -/
theorem requestWithRetry_spec_witness :
    requestWithRetry (fun i => if i < 3 then .httpError 503 else .success "ok")
        4 (1/2) = ⟨.ok "ok", [1/2, 1, 2], 4⟩ ∧
    requestWithRetry (fun _ => .httpError 404) 4 (1/2) =
        ⟨.error (.http 404), [], 1⟩ := by
  constructor
  · have h := requestWithRetry_spec.1
      (fun i => if i < 3 then .httpError 503 else .success "ok") "ok" (1/2)
      rfl rfl rfl rfl
    rw [h]
    norm_num
  · exact requestWithRetry_spec.2 (fun _ => .httpError 404) (1/2) 404
      (by decide) rfl

/-! ### C8 -/

/-- C8 counterexample: a present primary result of 200 characters and a
feed text of 300 characters.  The primary is shorter than the feed text,
so the claim predicts the feed text wins; the code keeps the primary
because it is not shorter than the 200-character threshold. -/
theorem resolveArticleBody_keeps_200_char_primary :
    resolveArticleBody (some (String.mk (List.replicate 200 'a')))
        (some (String.mk (List.replicate 300 'b'))) =
      some (String.mk (List.replicate 200 'a')) ∧
    (String.mk (List.replicate 200 'a')).length = 200 ∧
    (String.mk (List.replicate 300 'b')).length = 300 ∧
    String.mk (List.replicate 200 'a') ≠ String.mk (List.replicate 300 'b') ∧
    String.mk (List.replicate 300 'b') ≠ "" := by
  refine ⟨by decide, by decide, by decide, by decide, by decide⟩

/-- C8 (amended): when a nonempty feed-entry text was obtained, the final
body is the feed text exactly when the primary result is absent/empty, or
is both shorter than 200 characters and shorter than the feed text; in
every other case the primary result is kept. -/
theorem resolveArticleBody_spec (nb fb : String) (hfb : fb ≠ "") :
    resolveArticleBody (some nb) (some fb) =
      (if nb = "" ∨ (nb.length < 200 ∧ nb.length < fb.length) then some fb
       else some nb) ∧
    resolveArticleBody none (some fb) = some fb := by
  have main : resolveArticleBody (some nb) (some fb) =
      (if nb = "" ∨ (nb.length < 200 ∧ nb.length < fb.length) then some fb
       else some nb) := by
    simp only [resolveArticleBody]
    rw [if_neg hfb]
    by_cases hnb : nb = ""
    · rw [if_pos hnb, if_pos (Or.inl hnb)]
    · rw [if_neg hnb]
      by_cases hlen : nb.length < 200 ∧ fb.length > nb.length
      · rw [if_pos hlen, if_pos (Or.inr ⟨hlen.1, hlen.2⟩)]
      · rw [if_neg hlen, if_neg ?_]
        rintro (h | h)
        · exact hnb h
        · exact hlen ⟨h.1, h.2⟩
  exact ⟨main, by simp [resolveArticleBody, hfb]⟩

/-- Witness for the amended C8: a 1-character primary loses to a longer
feed text. -/
theorem resolveArticleBody_spec_witness :
    resolveArticleBody (some "x") (some "yy") = some "yy" := by
  have h := (resolveArticleBody_spec "x" "yy" (by decide)).1
  rw [h]
  decide

/-! ### C3 -/

/-- C3: the item id depends only on the source id and the entry's link:
entries that agree on `link` produce the same id (indeed the whole
id-relevant computation agrees), whatever their titles or publish
times. -/
theorem buildItem_id_deterministic (sha256hex md5hex : String → String)
    (sourceId : String) (e1 e2 : FeedEntry) (h : e1.link = e2.link) :
    (buildItem sha256hex md5hex sourceId e1).map BuiltItem.id =
      (buildItem sha256hex md5hex sourceId e2).map BuiltItem.id := by
  simp only [buildItem, h]
  rcases hno : normalizeUrl sha256hex
      (match ensureSourceLink sourceId (some (pyStrip e2.link)) with
       | some l => if l ≠ "" then l else pyStrip e2.link
       | none => pyStrip e2.link) with _ | ⟨nl, fp⟩ <;>
    simp [Except.map, Except.bind, hno, Bind.bind, pure, Except.pure]

/-- Witness for C3: same link, different titles and publish times. -/
theorem buildItem_id_deterministic_witness :
    (buildItem (fun _ => "s256") (fun _ => "m5") "bbc-world"
        ⟨"https://Example.com/a?utm_source=x", "title one", none⟩).map
        BuiltItem.id =
      (buildItem (fun _ => "s256") (fun _ => "m5") "bbc-world"
        ⟨"https://Example.com/a?utm_source=x", "title two",
          some "2024-01-01T00:00:00"⟩).map BuiltItem.id :=
  buildItem_id_deterministic _ _ _ _ _ rfl

/-! ### C5 counterexample -/

/-- C5 counterexample: `normalize_url` is not idempotent.  For
`"https://h/a #f"` the first pass keeps the trailing space of the path
(the fragment is dropped), producing `"https://h/a "`; renormalizing that
output strips the now-trailing space, producing a different normalized
string (hence a different fingerprint for an injective digest). -/
theorem normalizeUrl_not_idempotent :
    normalizeUrl (fun _ => "") "https://h/a #f" = .ok ("https://h/a ", "") ∧
    normalizeUrl (fun _ => "") "https://h/a " = .ok ("https://h/a", "") ∧
    "https://h/a " ≠ "https://h/a" := by
  refine ⟨rfl, rfl, by decide⟩

/-! ### Helper lemmas: characters -/

theorem charToNat_ofNat {n : Nat} (h : n.isValidChar) :
    (Char.ofNat n).toNat = n := by
  simp only [Char.ofNat, dif_pos h, Char.ofNatAux, Char.toNat]
  rfl

theorem charToNat_ofNat_small {n : Nat} (h : n < 55296) :
    (Char.ofNat n).toNat = n :=
  charToNat_ofNat (Or.inl h)

theorem charEq_iff_toNat {c d : Char} : c = d ↔ c.toNat = d.toNat := by
  constructor
  · intro h; rw [h]
  · intro h
    apply Char.eq_of_val_eq
    apply UInt32.eq_of_toBitVec_eq
    have : c.val.toNat = d.val.toNat := h
    exact BitVec.eq_of_toNat_eq this

theorem pyLowerChar_toNat (c : Char) :
    (pyLowerChar c).toNat =
      if 65 ≤ c.toNat ∧ c.toNat ≤ 90 then c.toNat + 32 else c.toNat := by
  unfold pyLowerChar
  split
  · next h => exact charToNat_ofNat_small (by omega)
  · rfl

theorem boolEq_of_iff {a b : Bool} (h : a = true ↔ b = true) : a = b := by
  cases a <;> cases b <;> simp_all

theorem pyLowerChar_idem (c : Char) :
    pyLowerChar (pyLowerChar c) = pyLowerChar c := by
  rw [charEq_iff_toNat, pyLowerChar_toNat (pyLowerChar c), pyLowerChar_toNat c]
  split_ifs <;> omega

theorem pyLower_idem (s : String) : pyLower (pyLower s) = pyLower s := by
  simp only [pyLower, List.map_map]
  have : pyLowerChar ∘ pyLowerChar = pyLowerChar := funext pyLowerChar_idem
  rw [this]

/-- `pyLowerChar` moves nothing out of, or into, a non-letter character:
equality with a target outside both ASCII letter ranges is preserved. -/
theorem pyLowerChar_eq_nonletter {t : Char}
    (h1 : ¬(65 ≤ t.toNat ∧ t.toNat ≤ 90)) (h2 : ¬(97 ≤ t.toNat ∧ t.toNat ≤ 122))
    (c : Char) : (pyLowerChar c = t) ↔ (c = t) := by
  rw [charEq_iff_toNat, charEq_iff_toNat, pyLowerChar_toNat]
  split_ifs with h <;> omega

theorem pyLowerChar_isAsciiAlpha (c : Char) :
    isAsciiAlpha (pyLowerChar c) = isAsciiAlpha c := by
  apply boolEq_of_iff
  simp only [isAsciiAlpha, Bool.or_eq_true, Bool.and_eq_true, decide_eq_true_eq,
    pyLowerChar_toNat]
  split_ifs with h <;> omega

theorem pyLowerChar_isSchemeChar (c : Char) :
    isSchemeChar (pyLowerChar c) = isSchemeChar c := by
  apply boolEq_of_iff
  have h43 : ('+' : Char).toNat = 43 := rfl
  have h45 : ('-' : Char).toNat = 45 := rfl
  have h46 : ('.' : Char).toNat = 46 := rfl
  simp only [isSchemeChar, isAsciiAlpha, isAsciiDigit, Bool.or_eq_true,
    Bool.and_eq_true, decide_eq_true_eq, charEq_iff_toNat, pyLowerChar_toNat,
    h43, h45, h46]
  split_ifs with h <;> omega

theorem pyLowerChar_isNetlocDelim (c : Char) :
    isNetlocDelim (pyLowerChar c) = isNetlocDelim c := by
  apply boolEq_of_iff
  have hs : ('/' : Char).toNat = 47 := rfl
  have hq : ('?' : Char).toNat = 63 := rfl
  have hh : ('#' : Char).toNat = 35 := rfl
  simp only [isNetlocDelim, Bool.or_eq_true, decide_eq_true_eq, charEq_iff_toNat,
    pyLowerChar_toNat, hs, hq, hh]
  split_ifs with h <;> omega

/-! ### Helper lemmas: splitting -/

theorem splitOnceChar_eq_some {sep : Char} {l : List Char} :
    ∀ {a b : List Char}, splitOnceChar sep l = some (a, b) →
      l = a ++ sep :: b ∧ sep ∉ a := by
  induction l with
  | nil => intro a b h; simp [splitOnceChar] at h
  | cons c rest ih =>
    intro a b h
    rw [splitOnceChar] at h
    by_cases hc : c = sep
    · rw [if_pos hc] at h
      simp only [Option.some.injEq, Prod.mk.injEq] at h
      obtain ⟨ha, hb⟩ := h
      subst hc
      rw [← ha, ← hb]
      simp
    · rw [if_neg hc] at h
      cases hrec : splitOnceChar sep rest with
      | none => rw [hrec] at h; exact absurd h (by simp)
      | some p =>
        obtain ⟨a2, b2⟩ := p
        rw [hrec] at h
        simp only [Option.some.injEq, Prod.mk.injEq] at h
        obtain ⟨ha, hb⟩ := h
        obtain ⟨hl, hmem⟩ := ih hrec
        refine ⟨by rw [← ha, ← hb]; simp [hl], ?_⟩
        rw [← ha]
        intro hmm
        rcases List.mem_cons.mp hmm with h1 | h1
        · exact hc h1.symm
        · exact hmem h1

theorem splitOnceChar_of_not_mem {sep : Char} {l : List Char} (h : sep ∉ l) :
    splitOnceChar sep l = none := by
  induction l with
  | nil => rfl
  | cons c rest ih =>
    rw [splitOnceChar]
    rw [if_neg (by intro hc; exact h (by simp [hc]))]
    rw [ih (by intro hm; exact h (by simp [hm]))]

theorem splitOnceChar_append {sep : Char} {a : List Char} (ha : sep ∉ a)
    (b : List Char) : splitOnceChar sep (a ++ sep :: b) = some (a, b) := by
  induction a with
  | nil => simp [splitOnceChar]
  | cons c rest ih =>
    have hc : ¬ c = sep := by intro hc; exact ha (by simp [hc])
    rw [List.cons_append, splitOnceChar, if_neg hc,
      ih (by intro hm; exact ha (by simp [hm]))]

theorem splitNetloc_eq {a : List Char} (b : List Char)
    (ha : ∀ c ∈ a, ¬ isNetlocDelim c)
    (hb : ∀ c ∈ b.take 1, isNetlocDelim c = true) :
    splitNetloc (a ++ b) = (a, b) := by
  induction a with
  | nil =>
    simp only [List.nil_append]
    cases b with
    | nil => rfl
    | cons c rest =>
      rw [splitNetloc, if_pos (hb c (by simp))]
  | cons c rest ih =>
    rw [List.cons_append, splitNetloc,
      if_neg (by simpa using ha c (by simp)),
      ih (fun x hx => ha x (by simp [hx]))]

theorem splitNetloc_spec (l : List Char) :
    (splitNetloc l).1 ++ (splitNetloc l).2 = l ∧
    (∀ c ∈ (splitNetloc l).1, ¬ isNetlocDelim c) ∧
    (∀ c ∈ (splitNetloc l).2.take 1, isNetlocDelim c = true) := by
  induction l with
  | nil => simp [splitNetloc]
  | cons c rest ih =>
    rw [splitNetloc]
    by_cases hc : isNetlocDelim c
    · rw [if_pos hc]
      refine ⟨rfl, by simp, ?_⟩
      intro x hx
      simp only [List.take_succ_cons, List.take_zero, List.mem_singleton] at hx
      subst hx
      exact hc
    · rw [if_neg hc]
      obtain ⟨h1, h2, h3⟩ := ih
      refine ⟨by simp [h1], ?_, h3⟩
      intro x hx
      rcases List.mem_cons.mp hx with rfl | hx
      · exact hc
      · exact h2 x hx

/-! ### Helper lemmas: UTF-8 roundtrip -/

theorem charToNat_lt (c : Char) : c.toNat < 1114112 := by
  rcases c.valid with h | ⟨_, h⟩
  · exact Nat.lt_trans h (by decide)
  · exact h

theorem charToNat_not_surrogate (c : Char) :
    c.toNat < 55296 ∨ 57343 < c.toNat := by
  rcases c.valid with h | ⟨h, _⟩
  · exact Or.inl h
  · exact Or.inr h

theorem utf8EncodeChar_lt_256 (c : Char) : ∀ b ∈ utf8EncodeChar c, b < 256 := by
  have hlt := charToNat_lt c
  unfold utf8EncodeChar
  split_ifs with h1 h2 h3 <;> intro b hb <;>
    simp only [List.mem_cons, List.mem_singleton, List.not_mem_nil,
      or_false] at hb <;>
    rcases hb with rfl | rfl | rfl | rfl <;> omega

theorem utf8DecodeList_cons_eq (b : Nat) (rest : List Nat) :
    utf8DecodeList (b :: rest) =
      (utf8DecodeOne b rest).1 ::
        utf8DecodeList (rest.drop ((utf8DecodeOne b rest).2 - 1)) := by
  rw [utf8DecodeList]

theorem utf8DecodeList_step1 {b : Nat} (h : b < 128) (l : List Nat) :
    utf8DecodeList (b :: l) = Char.ofNat b :: utf8DecodeList l := by
  rw [utf8DecodeList_cons_eq]
  rw [show utf8DecodeOne b l = (Char.ofNat b, 1) by
    unfold utf8DecodeOne; rw [if_pos h]]
  simp

theorem utf8DecodeList_step2 {b b1 : Nat} (h1 : 194 ≤ b) (h2 : b < 224)
    (hc : isContByte b1 = true) (l : List Nat) :
    utf8DecodeList (b :: b1 :: l) =
      Char.ofNat ((b - 192) * 64 + (b1 - 128)) :: utf8DecodeList l := by
  rw [utf8DecodeList_cons_eq]
  rw [show utf8DecodeOne b (b1 :: l) =
      (Char.ofNat ((b - 192) * 64 + (b1 - 128)), 2) by
    unfold utf8DecodeOne
    rw [if_neg (by omega), if_neg (by omega), if_pos (by omega)]
    dsimp only
    rw [if_pos hc]]
  simp

theorem utf8DecodeList_step3 {b b1 b2 : Nat} (h1 : 224 ≤ b) (h2 : b < 240)
    (hc : (isContByte b1 && isContByte b2 &&
        (decide (224 < b) || decide (160 ≤ b1)) &&
        (decide (b ≠ 237) || decide (b1 < 160))) = true) (l : List Nat) :
    utf8DecodeList (b :: b1 :: b2 :: l) =
      Char.ofNat ((b - 224) * 4096 + (b1 - 128) * 64 + (b2 - 128)) ::
        utf8DecodeList l := by
  rw [utf8DecodeList_cons_eq]
  rw [show utf8DecodeOne b (b1 :: b2 :: l) =
      (Char.ofNat ((b - 224) * 4096 + (b1 - 128) * 64 + (b2 - 128)), 3) by
    unfold utf8DecodeOne
    rw [if_neg (by omega), if_neg (by omega), if_neg (by omega),
      if_pos (by omega)]
    dsimp only
    rw [if_pos hc]]
  simp

theorem utf8DecodeList_step4 {b b1 b2 b3 : Nat} (h1 : 240 ≤ b) (h2 : b < 245)
    (hc : (isContByte b1 && isContByte b2 && isContByte b3 &&
        (decide (240 < b) || decide (144 ≤ b1)) &&
        (decide (b ≠ 244) || decide (b1 < 144))) = true) (l : List Nat) :
    utf8DecodeList (b :: b1 :: b2 :: b3 :: l) =
      Char.ofNat ((b - 240) * 262144 + (b1 - 128) * 4096 + (b2 - 128) * 64 +
        (b3 - 128)) :: utf8DecodeList l := by
  rw [utf8DecodeList_cons_eq]
  rw [show utf8DecodeOne b (b1 :: b2 :: b3 :: l) =
      (Char.ofNat ((b - 240) * 262144 + (b1 - 128) * 4096 + (b2 - 128) * 64 +
        (b3 - 128)), 4) by
    unfold utf8DecodeOne
    rw [if_neg (by omega), if_neg (by omega), if_neg (by omega),
      if_neg (by omega), if_pos (by omega)]
    dsimp only
    rw [if_pos hc]]
  simp

theorem utf8DecodeList_encode_cons (c : Char) (l : List Nat) :
    utf8DecodeList (utf8EncodeChar c ++ l) = c :: utf8DecodeList l := by
  have hlt := charToNat_lt c
  have hsur := charToNat_not_surrogate c
  unfold utf8EncodeChar
  by_cases h1 : c.toNat < 128
  · rw [if_pos h1, List.singleton_append, utf8DecodeList_step1 h1,
      Char.ofNat_toNat]
  · rw [if_neg h1]
    by_cases h2 : c.toNat < 2048
    · rw [if_pos h2, List.cons_append, List.singleton_append,
        utf8DecodeList_step2 (by omega) (by omega)
          (by simp only [isContByte, Bool.and_eq_true, decide_eq_true_eq]
              omega)]
      have heq : (192 + c.toNat / 64 - 192) * 64 + (128 + c.toNat % 64 - 128) =
          c.toNat := by omega
      rw [heq, Char.ofNat_toNat]
    · rw [if_neg h2]
      by_cases h3 : c.toNat < 65536
      · rw [if_pos h3, List.cons_append, List.cons_append,
          List.singleton_append,
          utf8DecodeList_step3 (by omega) (by omega)
            (by simp only [isContByte, Bool.and_eq_true, Bool.or_eq_true,
                  decide_eq_true_eq]
                omega)]
        have heq : (224 + c.toNat / 4096 - 224) * 4096 +
            (128 + c.toNat / 64 % 64 - 128) * 64 +
            (128 + c.toNat % 64 - 128) = c.toNat := by omega
        rw [heq, Char.ofNat_toNat]
      · rw [if_neg h3, List.cons_append, List.cons_append, List.cons_append,
          List.singleton_append,
          utf8DecodeList_step4 (by omega) (by omega)
            (by simp only [isContByte, Bool.and_eq_true, Bool.or_eq_true,
                  decide_eq_true_eq]
                omega)]
        have heq : (240 + c.toNat / 262144 - 240) * 262144 +
            (128 + c.toNat / 4096 % 64 - 128) * 4096 +
            (128 + c.toNat / 64 % 64 - 128) * 64 +
            (128 + c.toNat % 64 - 128) = c.toNat := by omega
        rw [heq, Char.ofNat_toNat]

theorem utf8DecodeList_encode_flat (cs : List Char) :
    utf8DecodeList (cs.flatMap utf8EncodeChar) = cs := by
  induction cs with
  | nil => simp [utf8DecodeList]
  | cons c rest ih =>
    rw [List.flatMap_cons, utf8DecodeList_encode_cons, ih]

/-! ### Helper lemmas: percent-encoding roundtrip -/

theorem hexDigitUpper_toNat {n : Nat} (h : n < 16) :
    (hexDigitUpper n).toNat = if n < 10 then 48 + n else 55 + n := by
  unfold hexDigitUpper
  by_cases h10 : n < 10
  · rw [if_pos h10, if_pos h10, charToNat_ofNat_small (by omega)]
  · rw [if_neg h10, if_neg h10, charToNat_ofNat_small (by omega)]

theorem hexVal_hexDigitUpper {n : Nat} (h : n < 16) :
    hexVal (hexDigitUpper n) = some n := by
  unfold hexVal
  rw [hexDigitUpper_toNat h]
  by_cases h10 : n < 10
  · rw [if_pos (by rw [if_pos h10]; omega)]
    rw [if_pos h10]
    congr 1
    omega
  · rw [if_neg (by rw [if_neg h10]; omega), if_neg (by rw [if_neg h10]; omega),
      if_pos (by rw [if_neg h10]; omega)]
    rw [if_neg h10]
    congr 1
    omega

theorem unquoteAux_cons_eq (c : Char) (rest : List Char) (pending : List Nat) :
    unquoteAux (c :: rest) pending =
      match unquoteStep c rest with
      | (some b, k) => unquoteAux (rest.drop (k - 1)) (b :: pending)
      | (none, _) =>
        utf8DecodeList pending.reverse ++ c :: unquoteAux rest [] := by
  rw [unquoteAux]

theorem unquoteAux_literal {c : Char} (hc : c ≠ '%') (rest : List Char)
    (pending : List Nat) :
    unquoteAux (c :: rest) pending =
      utf8DecodeList pending.reverse ++ c :: unquoteAux rest [] := by
  rw [unquoteAux_cons_eq,
    show unquoteStep c rest = (none, 1) by unfold unquoteStep; rw [if_neg hc]]

theorem unquoteAux_escape {h1 h2 : Char} {a b : Nat} (ha : hexVal h1 = some a)
    (hb : hexVal h2 = some b) (rest : List Char) (pending : List Nat) :
    unquoteAux ('%' :: h1 :: h2 :: rest) pending =
      unquoteAux rest ((a * 16 + b) :: pending) := by
  rw [unquoteAux_cons_eq,
    show unquoteStep '%' (h1 :: h2 :: rest) = (some (a * 16 + b), 3) by
      unfold unquoteStep
      rw [if_pos rfl]
      dsimp only
      rw [ha, hb]]
  simp

theorem unquoteAux_percent_run (bs : List Nat) (hbs : ∀ b ∈ bs, b < 256) :
    ∀ (rest : List Char) (pending : List Nat),
      unquoteAux (bs.flatMap percentEncodeByte ++ rest) pending =
        unquoteAux rest (bs.reverse ++ pending) := by
  induction bs with
  | nil => intro rest pending; simp
  | cons b bs ih =>
    intro rest pending
    have hb : b < 256 := hbs b (by simp)
    rw [List.flatMap_cons, percentEncodeByte, List.append_assoc,
      List.cons_append, List.cons_append, List.singleton_append,
      unquoteAux_escape (hexVal_hexDigitUpper (by omega))
        (hexVal_hexDigitUpper (by omega)),
      ih (fun x hx => hbs x (by simp [hx]))]
    have hbeq : b / 16 * 16 + b % 16 = b := by omega
    rw [hbeq]
    simp

theorem listMapId_of {f : Char → Char} :
    ∀ {l : List Char}, (∀ a ∈ l, f a = a) → l.map f = l
  | [], _ => rfl
  | c :: rest, h => by
    rw [List.map_cons, h c (by simp), listMapId_of fun a ha => h a (by simp [ha])]

theorem mem_percentStream {bs : List Nat} (hbs : ∀ b ∈ bs, b < 256) :
    ∀ ch ∈ bs.flatMap percentEncodeByte,
      ch = '%' ∨ (48 ≤ ch.toNat ∧ ch.toNat ≤ 57) ∨
        (65 ≤ ch.toNat ∧ ch.toNat ≤ 70) := by
  intro ch hch
  rw [List.mem_flatMap] at hch
  obtain ⟨b, hb, hch⟩ := hch
  have hb256 := hbs b hb
  rw [percentEncodeByte] at hch
  simp only [List.mem_cons, List.not_mem_nil, or_false] at hch
  rcases hch with rfl | rfl | rfl
  · exact Or.inl rfl
  · have ht := hexDigitUpper_toNat (show b / 16 < 16 by omega)
    right
    split_ifs at ht <;> omega
  · have ht := hexDigitUpper_toNat (show b % 16 < 16 by omega)
    right
    split_ifs at ht <;> omega

theorem quotePlus_mem_class (s : String) :
    ∀ ch ∈ (quotePlus s).data, ch = '+' ∨ isQuoteSafe ch = true ∨ ch = '%' ∨
      (48 ≤ ch.toNat ∧ ch.toNat ≤ 57) ∨ (65 ≤ ch.toNat ∧ ch.toNat ≤ 70) := by
  intro ch hch
  simp only [quotePlus, List.mem_flatMap] at hch
  obtain ⟨c, _, hch⟩ := hch
  rw [quotePlusChar] at hch
  split_ifs at hch with hsp hsafe
  · simp only [List.mem_singleton] at hch
    exact Or.inl hch
  · simp only [List.mem_singleton] at hch
    exact Or.inr (Or.inl (hch ▸ hsafe))
  · rcases mem_percentStream (utf8EncodeChar_lt_256 c) ch hch with h | h | h
    · exact Or.inr (Or.inr (Or.inl h))
    · exact Or.inr (Or.inr (Or.inr (Or.inl h)))
    · exact Or.inr (Or.inr (Or.inr (Or.inr h)))

/-- No `quote_plus` output character is a field or pair separator, a
query-start, or a fragment-start. -/
theorem quotePlus_no_special (s : String) :
    ∀ ch ∈ (quotePlus s).data,
      ch ≠ '&' ∧ ch ≠ '=' ∧ ch ≠ '?' ∧ ch ≠ '#' := by
  intro ch hch
  rcases quotePlus_mem_class s ch hch with rfl | h | rfl | h | h
  · exact ⟨by decide, by decide, by decide, by decide⟩
  · refine ⟨?_, ?_, ?_, ?_⟩ <;> (rintro rfl; exact absurd h (by decide))
  · exact ⟨by decide, by decide, by decide, by decide⟩
  · refine ⟨?_, ?_, ?_, ?_⟩ <;>
      (rintro rfl; revert h; decide)
  · refine ⟨?_, ?_, ?_, ?_⟩ <;>
      (rintro rfl; revert h; decide)

theorem unquote_quotePlus_aux (x : List Char) :
    ∀ cs : List Char,
      unquoteAux
        ((x.flatMap quotePlusChar).map (fun ch => if ch = '+' then ' ' else ch))
        ((cs.flatMap utf8EncodeChar).reverse) = cs ++ x := by
  induction x with
  | nil =>
    intro cs
    simp only [List.flatMap_nil, List.map_nil]
    rw [unquoteAux, List.reverse_reverse, utf8DecodeList_encode_flat,
      List.append_nil]
  | cons c xs ih =>
    intro cs
    rw [List.flatMap_cons, List.map_append]
    rw [show quotePlusChar c =
        if c = ' ' then ['+']
        else if isQuoteSafe c then [c]
        else (utf8EncodeChar c).flatMap percentEncodeByte from rfl]
    by_cases hsp : c = ' '
    · rw [if_pos hsp]
      simp only [List.map_cons, List.map_nil, if_pos rfl, List.singleton_append]
      rw [unquoteAux_literal (by decide), List.reverse_reverse,
        utf8DecodeList_encode_flat]
      have hnil := ih []
      simp only [List.flatMap_nil, List.reverse_nil, List.nil_append] at hnil
      rw [hnil, hsp]
      simp
    · rw [if_neg hsp]
      by_cases hsafe : isQuoteSafe c = true
      · rw [if_pos hsafe]
        have hplus : c ≠ '+' := by rintro rfl; exact absurd hsafe (by decide)
        simp only [List.map_cons, List.map_nil, if_neg hplus,
          List.singleton_append]
        have hpct : c ≠ '%' := by rintro rfl; exact absurd hsafe (by decide)
        rw [unquoteAux_literal hpct, List.reverse_reverse,
          utf8DecodeList_encode_flat]
        have hnil := ih []
        simp only [List.flatMap_nil, List.reverse_nil, List.nil_append] at hnil
        rw [hnil]
      · rw [if_neg hsafe]
        have hmap : ((utf8EncodeChar c).flatMap percentEncodeByte).map
            (fun ch => if ch = '+' then ' ' else ch) =
            (utf8EncodeChar c).flatMap percentEncodeByte := by
          apply listMapId_of
          intro a ha
          rcases mem_percentStream (utf8EncodeChar_lt_256 c) a ha
            with rfl | h | h
          · rfl
          · rw [if_neg (by rintro rfl; revert h; decide)]
          · rw [if_neg (by rintro rfl; revert h; decide)]
        rw [hmap, unquoteAux_percent_run (utf8EncodeChar c)
          (utf8EncodeChar_lt_256 c)]
        have hpend : (utf8EncodeChar c).reverse ++
            (cs.flatMap utf8EncodeChar).reverse =
            ((cs ++ [c]).flatMap utf8EncodeChar).reverse := by
          rw [← List.reverse_append, List.flatMap_append]
          simp
        rw [hpend, ih (cs ++ [c])]
        simp

/-- `unquote_plus(quote_plus(s)) = s`. -/
theorem unquotePlus_quotePlus (s : String) :
    unquotePlusList (quotePlus s).data = s := by
  unfold unquotePlusList
  have h := unquote_quotePlus_aux s.data []
  simp only [List.flatMap_nil, List.reverse_nil, List.nil_append] at h
  rw [show (quotePlus s).data = s.data.flatMap quotePlusChar from rfl, h]

/-! ### Helper lemmas: `parse_qsl` of `urlencode` -/

theorem pySplitChar_no_sep {sep : Char} :
    ∀ {l : List Char}, sep ∉ l → pySplitChar sep l = [l]
  | [], _ => rfl
  | c :: rest, h => by
    rw [pySplitChar, if_neg (by rintro rfl; exact h (by simp)),
      pySplitChar_no_sep (by intro hm; exact h (by simp [hm]))]

theorem pySplitChar_append_sep {sep : Char} :
    ∀ {x : List Char}, sep ∉ x → ∀ t,
      pySplitChar sep (x ++ sep :: t) = x :: pySplitChar sep t
  | [], _, t => by simp [pySplitChar]
  | c :: rest, h, t => by
    rw [List.cons_append, pySplitChar,
      if_neg (by rintro rfl; exact h (by simp)),
      pySplitChar_append_sep (by intro hm; exact h (by simp [hm])) t]

theorem eq_not_mem_quotePlus (k : String) : '=' ∉ (quotePlus k).data := by
  intro hm
  exact (quotePlus_no_special k _ hm).2.1 rfl

theorem amp_not_mem_field (k v : String) :
    '&' ∉ (quotePlus k).data ++ '=' :: (quotePlus v).data := by
  intro hm
  rcases List.mem_append.mp hm with h | h
  · exact (quotePlus_no_special k _ h).1 rfl
  · rcases List.mem_cons.mp h with h | h
    · exact absurd h (by decide)
    · exact (quotePlus_no_special v _ h).1 rfl

theorem joinSep_cons_cons (sep : Char) (x y : List Char)
    (ys : List (List Char)) :
    joinSep sep (x :: y :: ys) = x ++ sep :: joinSep sep (y :: ys) := rfl

theorem parseQsl_urlencode :
    ∀ P : List (String × String), parseQsl (urlencode P) = P
  | [] => rfl
  | [(k, v)] => by
    unfold parseQsl urlencode
    simp only [List.map_cons, List.map_nil]
    rw [show joinSep '&' [(quotePlus k).data ++ '=' :: (quotePlus v).data] =
      (quotePlus k).data ++ '=' :: (quotePlus v).data from rfl]
    rw [pySplitChar_no_sep (amp_not_mem_field k v), List.foldr_cons,
      List.foldr_nil]
    rw [if_neg (by simp), splitOnceChar_append (eq_not_mem_quotePlus k)]
    dsimp only
    rw [unquotePlus_quotePlus, unquotePlus_quotePlus]
  | (k, v) :: q :: ps2 => by
    have ih := parseQsl_urlencode (q :: ps2)
    unfold parseQsl urlencode at ih ⊢
    simp only [List.map_cons] at ih ⊢
    rw [joinSep_cons_cons, pySplitChar_append_sep (amp_not_mem_field k v),
      List.foldr_cons]
    rw [if_neg (by simp), splitOnceChar_append (eq_not_mem_quotePlus k)]
    dsimp only
    rw [unquotePlus_quotePlus, unquotePlus_quotePlus, ih]

/-! ### Helper lemmas: sorting and filtering query pairs -/

theorem pairLe_iff {a b : String × String} :
    pairLe a b = true ↔ (a.1 < b.1 ∨ (a.1 = b.1 ∧ a.2 ≤ b.2)) := by
  unfold pairLe
  simp [Bool.or_eq_true, Bool.and_eq_true, decide_eq_true_eq]

theorem pairLe_total (a b : String × String) :
    pairLe a b = true ∨ pairLe b a = true := by
  rw [pairLe_iff, pairLe_iff]
  rcases lt_trichotomy a.1 b.1 with h | h | h
  · exact Or.inl (Or.inl h)
  · rcases le_total a.2 b.2 with h2 | h2
    · exact Or.inl (Or.inr ⟨h, h2⟩)
    · exact Or.inr (Or.inr ⟨h.symm, h2⟩)
  · exact Or.inr (Or.inl h)

theorem pairLe_trans {a b c : String × String} (hab : pairLe a b = true)
    (hbc : pairLe b c = true) : pairLe a c = true := by
  rw [pairLe_iff] at *
  rcases hab with h1 | ⟨h1, h1b⟩
  · rcases hbc with h2 | ⟨h2, _⟩
    · exact Or.inl (lt_trans h1 h2)
    · exact Or.inl (h2 ▸ h1)
  · rcases hbc with h2 | ⟨h2, h2b⟩
    · exact Or.inl (h1 ▸ h2)
    · exact Or.inr ⟨h1.trans h2, le_trans h1b h2b⟩

theorem insertPair_eq_orderedInsert (x : String × String) :
    ∀ l, insertPair x l =
      List.orderedInsert (fun a b => pairLe a b = true) x l
  | [] => rfl
  | y :: ys => by
    rw [insertPair, List.orderedInsert]
    by_cases h : pairLe x y = true
    · rw [if_pos h, if_pos h]
    · rw [if_neg h, if_neg h, insertPair_eq_orderedInsert x ys]

theorem sortPairs_eq_insertionSort (l : List (String × String)) :
    sortPairs l = List.insertionSort (fun a b => pairLe a b = true) l := by
  induction l with
  | nil => rfl
  | cons x ls ih =>
    rw [show sortPairs (x :: ls) = insertPair x (sortPairs ls) from rfl,
      List.insertionSort, ih, insertPair_eq_orderedInsert]

theorem sortPairs_sortPairs (l : List (String × String)) :
    sortPairs (sortPairs l) = sortPairs l := by
  haveI : IsTotal (String × String) (fun a b => pairLe a b = true) :=
    ⟨pairLe_total⟩
  haveI : IsTrans (String × String) (fun a b => pairLe a b = true) :=
    ⟨fun _ _ _ => pairLe_trans⟩
  rw [sortPairs_eq_insertionSort, sortPairs_eq_insertionSort]
  exact (List.sorted_insertionSort _ l).insertionSort_eq

theorem mem_sortPairs {y : String × String} {l : List (String × String)} :
    y ∈ sortPairs l ↔ y ∈ l := by
  rw [sortPairs_eq_insertionSort]
  exact List.mem_insertionSort _

theorem stripTrackingParams_sortPairs_stable (q : List (String × String)) :
    stripTrackingParams (sortPairs (stripTrackingParams q)) =
      sortPairs (stripTrackingParams q) := by
  unfold stripTrackingParams
  apply List.filter_eq_self.mpr
  intro kv hkv
  have hmem : kv ∈ List.filter
      (fun kv => !TRACKING_PARAMS.contains kv.1) q := mem_sortPairs.mp hkv
  exact (List.mem_filter.mp hmem).2

/-! ### Helper lemmas: `_splitparams` -/

theorem exists_first_occ {c : Char} {l : List Char} (h : c ∈ l) :
    ∃ x y, l = x ++ c :: y ∧ c ∉ x := by
  induction l with
  | nil => cases h
  | cons d rest ih =>
    by_cases hd : d = c
    · refine ⟨[], rest, ?_, by simp⟩
      rw [hd, List.nil_append]
    · have hcr : c ∈ rest := by
        rcases List.mem_cons.mp h with h1 | h1
        · exact absurd h1.symm hd
        · exact h1
      obtain ⟨x, y, hxy, hnx⟩ := ih hcr
      refine ⟨d :: x, y, ?_, ?_⟩
      · rw [List.cons_append, hxy]
      · intro hm
        rcases List.mem_cons.mp hm with h1 | h1
        · exact hd h1.symm
        · exact hnx h1

theorem exists_last_occ {c : Char} {l : List Char} (h : c ∈ l) :
    ∃ x y, l = x ++ c :: y ∧ c ∉ y := by
  induction l with
  | nil => cases h
  | cons d rest ih =>
    by_cases hr : c ∈ rest
    · obtain ⟨x, y, hxy, hny⟩ := ih hr
      exact ⟨d :: x, y, by rw [List.cons_append, hxy], hny⟩
    · rcases List.mem_cons.mp h with h1 | h1
      · exact ⟨[], rest, by rw [List.nil_append, h1], hr⟩
      · exact absurd h1 hr

theorem findIdx?_no_hit {p : Char → Bool} {a : List Char}
    (ha : ∀ x ∈ a, p x = false) {c : Char} (hc : p c = true) (b : List Char) :
    (a ++ c :: b).findIdx? p = some a.length := by
  rw [List.findIdx?_append, List.findIdx?_eq_none_iff.mpr ha]
  simp [List.findIdx?_cons, hc]

theorem lastSlashIdx_eq {a b : List Char} (hb : '/' ∉ b) :
    lastSlashIdx (a ++ '/' :: b) = a.length := by
  unfold lastSlashIdx
  rw [List.reverse_append, List.reverse_cons, List.append_assoc,
    List.singleton_append]
  rw [findIdx?_no_hit (fun x hx => by
      have hxb : x ∈ b := List.mem_reverse.mp hx
      have hne : x ≠ '/' := fun he => hb (he ▸ hxb)
      simp [hne])
    (by simp) a.reverse]
  simp only [Option.getD_some, List.length_reverse, List.length_append,
    List.length_cons]
  omega

theorem splitParams_with_params {a b1 b2 : List Char}
    (hslash : '/' ∉ b1 ++ ';' :: b2) (hsemi : ';' ∉ b1) :
    splitParams (a ++ '/' :: (b1 ++ ';' :: b2)) = (a ++ '/' :: b1, b2) := by
  unfold splitParams
  rw [if_pos (by simp), lastSlashIdx_eq hslash, List.drop_left]
  rw [show ('/' :: (b1 ++ ';' :: b2)) = ('/' :: b1) ++ ';' :: b2 from by simp]
  rw [findIdx?_no_hit (fun x hx => by
      rcases List.mem_cons.mp hx with rfl | hx1
      · simp
      · have hne : x ≠ ';' := fun he => hsemi (he ▸ hx1)
        simp [hne])
    (by simp) b2]
  dsimp only
  rw [← List.append_assoc]
  have h1 : a.length + ('/' :: b1).length = (a ++ '/' :: b1).length := by
    simp
  rw [h1, List.take_left]
  rw [show (a ++ '/' :: b1) ++ ';' :: b2 = ((a ++ '/' :: b1) ++ [';']) ++ b2
    from by simp]
  rw [List.drop_left' (by
    simp only [List.length_append, List.length_cons, List.length_nil])]

theorem splitParams_no_semi_in_last {a b : List Char} (hslash : '/' ∉ b)
    (hsemi : ';' ∉ b) :
    splitParams (a ++ '/' :: b) = (a ++ '/' :: b, []) := by
  unfold splitParams
  rw [if_pos (by simp), lastSlashIdx_eq hslash, List.drop_left]
  rw [List.findIdx?_eq_none_iff.mpr (fun x hx => by
    rcases List.mem_cons.mp hx with rfl | hx1
    · simp
    · have hne : x ≠ ';' := fun he => hsemi (he ▸ hx1)
      simp [hne])]

theorem splitParams_no_slash_semi {x y : List Char}
    (h1 : '/' ∉ x ++ ';' :: y) (hsemi : ';' ∉ x) :
    splitParams (x ++ ';' :: y) = (x, y) := by
  unfold splitParams
  rw [if_neg h1]
  rw [findIdx?_no_hit (fun d hd => by
      have hne : d ≠ ';' := fun he => hsemi (he ▸ hd)
      simp [hne])
    (by simp) y]
  dsimp only
  rw [List.take_left]
  rw [show x ++ ';' :: y = (x ++ [';']) ++ y from by simp,
    List.drop_left' (by simp)]

theorem splitParams_no_slash {p : List Char} (h1 : '/' ∉ p) (h2 : ';' ∉ p) :
    splitParams p = (p, []) := by
  unfold splitParams
  rw [if_neg h1]
  rw [List.findIdx?_eq_none_iff.mpr (fun x hx => by
    have hne : x ≠ ';' := fun he => h2 (he ▸ hx)
    simp [hne])]

theorem splitParams_fst_stable (p : List Char) :
    splitParams (splitParams p).1 = ((splitParams p).1, []) := by
  by_cases hs : '/' ∈ p
  · rcases exists_last_occ hs with ⟨a, b, rfl, hnb⟩
    by_cases hsemi : ';' ∈ b
    · rcases exists_first_occ hsemi with ⟨b1, b2, rfl, hnb1⟩
      rw [splitParams_with_params hnb hnb1]
      exact splitParams_no_semi_in_last
        (fun hm => hnb (by simp [hm])) hnb1
    · rw [splitParams_no_semi_in_last hnb hsemi]
      exact splitParams_no_semi_in_last hnb hsemi
  · by_cases hsemi : ';' ∈ p
    · rcases exists_first_occ hsemi with ⟨x, y, rfl, hnx⟩
      rw [splitParams_no_slash_semi hs hnx]
      exact splitParams_no_slash
        (fun hm => hs (by simp [hm])) hnx
    · rw [splitParams_no_slash hs hsemi]
      exact splitParams_no_slash hs hsemi

theorem splitParams_fst_prefix (p : List Char) : (splitParams p).1 <+: p := by
  unfold splitParams
  by_cases hs : '/' ∈ p
  · rw [if_pos hs]
    cases hf : (p.drop (lastSlashIdx p)).findIdx? (· = ';') with
    | none => exact List.prefix_refl p
    | some k => exact List.take_prefix _ p
  · rw [if_neg hs]
    cases hf : p.findIdx? (· = ';') with
    | none => exact List.prefix_refl p
    | some k => exact List.take_prefix _ p

theorem splitParams_fst_take1 {p : List Char} (hp : p.take 1 = ['/']) :
    (splitParams p).1.take 1 = ['/'] := by
  have hs : '/' ∈ p := by
    cases p with
    | nil => simp at hp
    | cons c rest =>
      simp only [List.take_succ_cons, List.take_zero, List.cons.injEq] at hp
      rw [hp.1]
      simp
  rcases exists_last_occ hs with ⟨a, b, hab, hnb⟩
  by_cases hsemi : ';' ∈ b
  · rcases exists_first_occ hsemi with ⟨b1, b2, hb12, hnb1⟩
    rw [hb12] at hab
    rw [hab] at hp ⊢
    rw [splitParams_with_params (hb12 ▸ hnb) hnb1]
    cases a with
    | nil => simp
    | cons c arest =>
      simp only [List.cons_append, List.take_succ_cons, List.take_zero]
        at hp ⊢
      exact hp
  · rw [hab] at hp ⊢
    rw [splitParams_no_semi_in_last hnb hsemi]
    exact hp

/-! ### Helper lemmas: `urlsplit` structure -/

theorem splitOnceChar_eq_none_mem {sep : Char} {l : List Char}
    (h : splitOnceChar sep l = none) : sep ∉ l := by
  induction l with
  | nil => simp
  | cons c rest ih =>
    rw [splitOnceChar] at h
    by_cases hc : c = sep
    · rw [if_pos hc] at h; exact absurd h (by simp)
    · rw [if_neg hc] at h
      cases hrec : splitOnceChar sep rest with
      | none =>
        intro hm
        rcases List.mem_cons.mp hm with h1 | h1
        · exact hc h1.symm
        · exact ih hrec h1
      | some p => rw [hrec] at h; exact absurd h (by simp)

theorem prefix_take1 {x y : List Char} (h : x <+: y) (hx : x ≠ []) :
    x.take 1 = y.take 1 := by
  obtain ⟨t, rfl⟩ := h
  cases x with
  | nil => exact absurd rfl hx
  | cons c rest => simp

/-- Structural facts about a successful `urlsplit`. -/
theorem pyUrlsplit_ok_facts {u : String} {r : SplitResult}
    (h : pyUrlsplit u = .ok r) :
    (r.scheme = "" ∨ (r.scheme.data ≠ [] ∧
      isAsciiAlpha (r.scheme.data.headD ' ') = true ∧
      r.scheme.data.all isSchemeChar = true ∧
      r.scheme.data.map pyLowerChar = r.scheme.data)) ∧
    (∀ c ∈ r.netloc.data, ¬ isNetlocDelim c = true) ∧
    ('[' ∈ r.netloc.data ↔ ']' ∈ r.netloc.data) ∧
    '#' ∉ r.path.data ∧ '?' ∉ r.path.data ∧ '#' ∉ r.query.data ∧
    (r.netloc.data ≠ [] → r.path.data = [] ∨ r.path.data.take 1 = ['/']) := by
  unfold pyUrlsplit at h
  -- scheme stage
  have hscheme :
      ∃ scheme rest, (scheme = [] ∨ (scheme ≠ [] ∧
          isAsciiAlpha (scheme.headD ' ') = true ∧
          scheme.all isSchemeChar = true ∧
          scheme.map pyLowerChar = scheme)) ∧
        (match splitOnceChar ':' u.data with
          | some (before, after) =>
            if before ≠ [] ∧ isAsciiAlpha (before.headD ' ') ∧
                before.all isSchemeChar then
              (before.map pyLowerChar, after)
            else ([], u.data)
          | none => ([], u.data)) = (scheme, rest) := by
    cases hsp : splitOnceChar ':' u.data with
    | none => exact ⟨[], u.data, Or.inl rfl, by simp only [hsp]⟩
    | some p =>
      obtain ⟨before, after⟩ := p
      by_cases hcond : before ≠ [] ∧ isAsciiAlpha (before.headD ' ') ∧
          before.all isSchemeChar
      · refine ⟨before.map pyLowerChar, after, Or.inr ⟨?_, ?_, ?_, ?_⟩, by
          simp only [hsp]
          rw [if_pos hcond]⟩
        · simp [hcond.1]
        · obtain ⟨c, rest2, rfl⟩ := List.exists_cons_of_ne_nil hcond.1
          simp only [List.map_cons, List.headD_cons]
          rw [pyLowerChar_isAsciiAlpha]
          exact hcond.2.1
        · rw [List.all_map]
          rw [show (isSchemeChar ∘ pyLowerChar) = isSchemeChar from
            funext pyLowerChar_isSchemeChar]
          exact hcond.2.2
        · rw [List.map_map,
            show (pyLowerChar ∘ pyLowerChar) = pyLowerChar from
              funext pyLowerChar_idem]
      · refine ⟨[], u.data, Or.inl rfl, ?_⟩
        simp only [hsp]
        rw [if_neg hcond]
  obtain ⟨scheme, rest0, hschemeFacts, hsp⟩ := hscheme
  rw [hsp] at h
  dsimp only at h
  -- netloc stage
  have hnet : ∃ netloc rest1, (∀ c ∈ netloc, ¬ isNetlocDelim c = true) ∧
      (netloc = [] ∨ ∀ c ∈ rest1.take 1, isNetlocDelim c = true) ∧
      (if rest0.take 2 = ['/', '/'] then splitNetloc (rest0.drop 2)
        else ([], rest0)) = (netloc, rest1) := by
    by_cases htake : rest0.take 2 = ['/', '/']
    · obtain ⟨h1, h2, h3⟩ := splitNetloc_spec (rest0.drop 2)
      exact ⟨(splitNetloc (rest0.drop 2)).1, (splitNetloc (rest0.drop 2)).2,
        h2, Or.inr h3, by rw [if_pos htake]⟩
    · exact ⟨[], rest0, by simp, Or.inl rfl, by rw [if_neg htake]⟩
  obtain ⟨netloc, rest1, hnetClean, hnetHead, hnet⟩ := hnet
  rw [hnet] at h
  dsimp only at h
  by_cases hbr : ('[' ∈ netloc ∧ ']' ∉ netloc) ∨ (']' ∈ netloc ∧ '[' ∉ netloc)
  · rw [if_pos hbr] at h
    exact absurd h (by simp)
  · rw [if_neg hbr] at h
    -- fragment stage
    have hfrag : ∃ rest2 fragment, ('#' ∉ rest2) ∧ (rest2 <+: rest1) ∧
        (match splitOnceChar '#' rest1 with
          | some (a, b) => (a, b)
          | none => (rest1, [])) = (rest2, fragment) := by
      cases hf : splitOnceChar '#' rest1 with
      | none =>
        exact ⟨rest1, [], splitOnceChar_eq_none_mem hf, List.prefix_refl _,
          by simp only [hf]⟩
      | some p =>
        obtain ⟨a, b⟩ := p
        obtain ⟨hl, hmem⟩ := splitOnceChar_eq_some hf
        exact ⟨a, b, hmem, ⟨'#' :: b, hl.symm⟩, by simp only [hf]⟩
    obtain ⟨rest2, fragment, hfragFree, hfragPre, hfrag⟩ := hfrag
    rw [hfrag] at h
    dsimp only at h
    -- query stage
    have hquery : ∃ path query, ('?' ∉ path) ∧ (path <+: rest2) ∧
        (∀ c ∈ query, c ∈ rest2) ∧
        (match splitOnceChar '?' rest2 with
          | some (a, b) => (a, b)
          | none => (rest2, [])) = (path, query) := by
      cases hf : splitOnceChar '?' rest2 with
      | none =>
        exact ⟨rest2, [], splitOnceChar_eq_none_mem hf, List.prefix_refl _,
          by simp, by simp only [hf]⟩
      | some p =>
        obtain ⟨a, b⟩ := p
        obtain ⟨hl, hmem⟩ := splitOnceChar_eq_some hf
        refine ⟨a, b, hmem, ⟨'?' :: b, hl.symm⟩, ?_, by simp only [hf]⟩
        intro c hc
        rw [hl]
        simp [hc]
    obtain ⟨path, query, hqFree, hpathPre, hqSub, hquery⟩ := hquery
    rw [hquery] at h
    dsimp only at h
    have hr : r = ⟨String.mk scheme, String.mk netloc, String.mk path,
        String.mk query, String.mk fragment⟩ := by
      cases h
      rfl
    subst hr
    refine ⟨?_, hnetClean, ?_, ?_, hqFree, ?_, ?_⟩
    · rcases hschemeFacts with h1 | h1
      · left
        rw [h1]
      · exact Or.inr h1
    · constructor
      · intro hmem
        by_cases hm2 : ']' ∈ netloc
        · exact hm2
        · exact absurd (Or.inl ⟨hmem, hm2⟩) hbr
      · intro hmem
        by_cases hm2 : '[' ∈ netloc
        · exact hm2
        · exact absurd (Or.inr ⟨hmem, hm2⟩) hbr
    · intro hmem
      exact hfragFree (hpathPre.sublist.subset hmem)
    · intro hmem
      exact hfragFree (hqSub '#' hmem)
    · intro hne
      by_cases hp0 : path = []
      · exact Or.inl hp0
      · right
        rcases hnetHead with h1 | h1
        · exact absurd h1 hne
        · have hpr : path <+: rest1 := hpathPre.trans hfragPre
          have ht1 : path.take 1 = rest1.take 1 := prefix_take1 hpr hp0
          obtain ⟨c, t, rfl⟩ := List.exists_cons_of_ne_nil hp0
          have hcdelim : isNetlocDelim c = true := by
            apply h1
            rw [← ht1]
            simp
          have hc1 : c ≠ '#' := fun he => hfragFree
            (hpathPre.sublist.subset
              (show '#' ∈ c :: t by rw [← he]; exact List.mem_cons_self c t))
          have hc2 : c ≠ '?' := fun he =>
            hqFree (show '?' ∈ c :: t by
              rw [← he]; exact List.mem_cons_self c t)
          simp only [isNetlocDelim, Bool.or_eq_true, decide_eq_true_eq]
            at hcdelim
          rcases hcdelim with (rfl | rfl) | rfl
          · simp
          · exact absurd rfl hc2
          · exact absurd rfl hc1

theorem all_schemeChar_no_colon {l : List Char}
    (h : l.all isSchemeChar = true) : ':' ∉ l := by
  intro hm
  have hc := List.all_eq_true.mp h ':' hm
  exact absurd hc (by decide)

theorem stringMk_data (s : String) : String.mk s.data = s := rfl

theorem take1_of_take2 {l : List Char} (h : l.take 2 = ['/', '/']) :
    l.take 1 = ['/'] := by
  have h2 : (l.take 2).take 1 = ['/'] := by
    rw [h]
    decide
  rwa [List.take_take, show min 1 2 = 1 from rfl] at h2

/-- Reparsing an unsplit URL with a nonempty authority. -/
theorem pyUrlsplit_reconstruct_netloc {scheme netloc path query : String}
    (hs1 : scheme.data ≠ [])
    (hs2 : isAsciiAlpha (scheme.data.headD ' ') = true)
    (hs3 : scheme.data.all isSchemeChar = true)
    (hs4 : scheme.data.map pyLowerChar = scheme.data)
    (hnl : netloc.data ≠ [])
    (hn : ∀ c ∈ netloc.data, ¬ isNetlocDelim c = true)
    (hb : '[' ∈ netloc.data ↔ ']' ∈ netloc.data)
    (hp1 : '#' ∉ path.data) (hp2 : '?' ∉ path.data) (hp0 : path.data ≠ [])
    (hpth : path.data.take 1 = ['/'])
    (hq1 : '#' ∉ query.data) :
    pyUrlsplit (urlunsplit scheme netloc path query "") =
      .ok ⟨scheme, netloc, path, query, ""⟩ := by
  have hsch : scheme ≠ "" := by
    intro he
    rw [he] at hs1
    exact hs1 rfl
  have hnl2 : netloc ≠ "" := by
    intro he
    rw [he] at hnl
    exact hnl rfl
  have heval : urlunsplit scheme netloc path query "" =
      String.mk (scheme.data ++ ':' :: '/' :: '/' :: (netloc.data ++
        (path.data ++ (if query = "" then [] else '?' :: query.data)))) := by
    unfold urlunsplit
    dsimp only
    rw [if_pos (Or.inl hnl2)]
    rw [if_neg (show ¬(path.data ≠ [] ∧ path.data.take 1 ≠ ['/']) from
      fun hc => hc.2 hpth)]
    rw [if_pos hsch]
    rw [if_neg (show ¬(("" : String) ≠ "") from fun h => h rfl)]
    by_cases hq : query = ""
    · rw [if_neg (show ¬(query ≠ "") from fun h => h hq), if_pos hq]
      simp
    · rw [if_pos (show query ≠ "" from hq), if_neg hq]
      simp
  rw [heval]
  unfold pyUrlsplit
  have hG : ∀ l : List Char, (String.mk l).data = l := fun _ => rfl
  rw [hG]
  rw [splitOnceChar_append (all_schemeChar_no_colon hs3)]
  dsimp only
  rw [if_pos (show scheme.data ≠ [] ∧
      isAsciiAlpha (scheme.data.headD ' ') ∧
      scheme.data.all isSchemeChar from ⟨hs1, hs2, hs3⟩)]
  dsimp only
  rw [hs4]
  set qp : List Char := if query = "" then [] else '?' :: query.data with hqp
  rw [show List.take 2 ('/' :: '/' :: (netloc.data ++ (path.data ++ qp))) =
    ['/', '/'] from rfl]
  rw [if_pos rfl]
  rw [show List.drop 2 ('/' :: '/' :: (netloc.data ++ (path.data ++ qp))) =
    netloc.data ++ (path.data ++ qp) from rfl]
  have hqp1 : (path.data ++ qp).take 1 = ['/'] := by
    rw [← prefix_take1 (List.prefix_append path.data qp) hp0]
    exact hpth
  rw [splitNetloc_eq _ hn (by
    intro c hc
    rw [hqp1] at hc
    simp only [List.mem_singleton] at hc
    rw [hc]
    rfl)]
  dsimp only
  rw [if_neg (show ¬(('[' ∈ netloc.data ∧ ']' ∉ netloc.data) ∨
      (']' ∈ netloc.data ∧ '[' ∉ netloc.data)) by
    rintro (⟨h1, h2⟩ | ⟨h1, h2⟩)
    · exact h2 (hb.mp h1)
    · exact h2 (hb.mpr h1))]
  have hqpHash : '#' ∉ qp := by
    rw [hqp]
    by_cases hq : query = ""
    · rw [if_pos hq]
      simp
    · rw [if_neg hq]
      intro hm
      rcases List.mem_cons.mp hm with h1 | h1
      · exact absurd h1 (by decide)
      · exact hq1 h1
  rw [splitOnceChar_of_not_mem (show '#' ∉ path.data ++ qp by
    intro hm
    rcases List.mem_append.mp hm with h1 | h1
    · exact hp1 h1
    · exact hqpHash h1)]
  dsimp only
  by_cases hq : query = ""
  · have hqpe : qp = [] := by rw [hqp, if_pos hq]
    rw [hqpe, List.append_nil]
    rw [splitOnceChar_of_not_mem hp2]
    dsimp only
    rw [stringMk_data, stringMk_data, stringMk_data]
    rw [hq]
  · have hqpe : qp = '?' :: query.data := by rw [hqp, if_neg hq]
    rw [hqpe]
    rw [splitOnceChar_append hp2]

theorem splitParams_of_no_semi {p : List Char} (h : ';' ∉ p) :
    splitParams p = (p, []) := by
  by_cases hs : '/' ∈ p
  · rcases exists_last_occ hs with ⟨a, b, rfl, hnb⟩
    exact splitParams_no_semi_in_last hnb (fun hm => h (by simp [hm]))
  · exact splitParams_no_slash hs h

/-- `urlparse` on top of a successful `urlsplit` whose path has no residual
parameter segment. -/
theorem pyUrlparse_of_urlsplit {u : String} {s : SplitResult}
    (h : pyUrlsplit u = .ok s)
    (hst : splitParams s.path.data = (s.path.data, [])) :
    pyUrlparse u = .ok ⟨s.scheme, s.netloc, s.path, "", s.query, s.fragment⟩ := by
  unfold pyUrlparse
  rw [h]
  dsimp only
  by_cases hsemi : ';' ∈ s.path.data
  · rw [if_pos hsemi, hst]
  · rw [if_neg hsemi]

theorem pyUrlparse_ok_facts {u : String} {r : ParseResult}
    (h : pyUrlparse u = .ok r) :
    (r.scheme = "" ∨ (r.scheme.data ≠ [] ∧
      isAsciiAlpha (r.scheme.data.headD ' ') = true ∧
      r.scheme.data.all isSchemeChar = true ∧
      r.scheme.data.map pyLowerChar = r.scheme.data)) ∧
    (∀ c ∈ r.netloc.data, ¬ isNetlocDelim c = true) ∧
    ('[' ∈ r.netloc.data ↔ ']' ∈ r.netloc.data) ∧
    '#' ∉ r.path.data ∧ '?' ∉ r.path.data ∧ '#' ∉ r.query.data ∧
    (r.netloc.data ≠ [] → r.path.data = [] ∨ r.path.data.take 1 = ['/']) ∧
    splitParams r.path.data = (r.path.data, []) := by
  unfold pyUrlparse at h
  cases hs : pyUrlsplit u with
  | error e =>
    rw [hs] at h
    exact absurd h (by simp)
  | ok s =>
    rw [hs] at h
    dsimp only at h
    obtain ⟨f1, f2, f3, f4, f5, f6, f7⟩ := pyUrlsplit_ok_facts hs
    by_cases hsemi : ';' ∈ s.path.data
    · rw [if_pos hsemi] at h
      have hpre := splitParams_fst_prefix s.path.data
      have hr : r = ⟨s.scheme, s.netloc,
          String.mk (splitParams s.path.data).1,
          String.mk (splitParams s.path.data).2, s.query, s.fragment⟩ := by
        cases h
        rfl
      subst hr
      refine ⟨f1, f2, f3, ?_, ?_, f6, ?_, ?_⟩
      · exact fun hm => f4 (hpre.subset hm)
      · exact fun hm => f5 (hpre.subset hm)
      · intro hnl
        rcases f7 hnl with hemp | htk
        · left
          rw [show (String.mk (splitParams s.path.data).1).data =
            (splitParams s.path.data).1 from rfl]
          rw [hemp] at hpre ⊢
          exact List.prefix_nil.mp hpre
        · right
          exact splitParams_fst_take1 htk
      · exact splitParams_fst_stable s.path.data
    · rw [if_neg hsemi] at h
      cases h
      exact ⟨f1, f2, f3, f4, f5, f6, f7, splitParams_of_no_semi hsemi⟩

theorem mem_joinSep {sep c : Char} :
    ∀ (xs : List (List Char)), c ∈ joinSep sep xs →
      c = sep ∨ ∃ x ∈ xs, c ∈ x
  | [], h => by rw [show joinSep sep [] = [] from rfl] at h; cases h
  | [x], h => Or.inr ⟨x, by simp,
      by rwa [show joinSep sep [x] = x from rfl] at h⟩
  | x :: y :: rest, h => by
    rw [show joinSep sep (x :: y :: rest) =
      x ++ sep :: joinSep sep (y :: rest) from rfl] at h
    rcases List.mem_append.mp h with h1 | h1
    · exact Or.inr ⟨x, by simp, h1⟩
    · rcases List.mem_cons.mp h1 with rfl | h2
      · exact Or.inl rfl
      · rcases mem_joinSep (y :: rest) h2 with h3 | ⟨z, hz, hcz⟩
        · exact Or.inl h3
        · exact Or.inr ⟨z, by simp [hz], hcz⟩

theorem urlencode_no_hash (P : List (String × String)) :
    '#' ∉ (urlencode P).data := by
  intro hm
  rw [show (urlencode P).data = joinSep '&' (P.map fun kv =>
    (quotePlus kv.1).data ++ '=' :: (quotePlus kv.2).data) from rfl] at hm
  rcases mem_joinSep _ hm with h1 | ⟨x, hx, hcx⟩
  · exact absurd h1 (by decide)
  · rcases List.mem_map.mp hx with ⟨kv, _, rfl⟩
    rcases List.mem_append.mp hcx with h2 | h2
    · exact ((quotePlus_no_special kv.1 _ h2).2.2.2) rfl
    · rcases List.mem_cons.mp h2 with h3 | h3
      · exact absurd h3 (by decide)
      · exact ((quotePlus_no_special kv.2 _ h3).2.2.2) rfl

theorem pyLower_eq_self {s : String}
    (h : ∀ c ∈ s.data, pyLowerChar c = c) : pyLower s = s := by
  unfold pyLower
  rw [List.map_congr_left h, List.map_id']

theorem pyEndsWith_decomp {s t : String} (h : pyEndsWith s t = true) :
    ∃ pre, s.data = pre ++ t.data := by
  have hsuf : t.data <:+ s.data := by
    rw [← List.isSuffixOf_iff_suffix]
    exact h
  obtain ⟨pre, hpre⟩ := hsuf
  exact ⟨pre, hpre.symm⟩

theorem stripDefaultPort_cases (scheme netloc : String) :
    stripDefaultPort scheme netloc = netloc ∨
    ∃ suf, (suf = [':', '8', '0'] ∨ suf = [':', '4', '4', '3']) ∧
      netloc.data = (stripDefaultPort scheme netloc).data ++ suf := by
  unfold stripDefaultPort
  split_ifs with h1 h2
  · right
    obtain ⟨pre, hpre⟩ := pyEndsWith_decomp h1.2
    refine ⟨[':', '8', '0'], Or.inl rfl, ?_⟩
    rw [show (pyDropRight netloc 3).data =
      netloc.data.take (netloc.data.length - 3) from rfl]
    rw [hpre, show (":80" : String).data = [':', '8', '0'] from rfl]
    rw [List.length_append, show ([':', '8', '0'] : List Char).length = 3
      from rfl, Nat.add_sub_cancel, List.take_left]
  · right
    obtain ⟨pre, hpre⟩ := pyEndsWith_decomp h2.2
    refine ⟨[':', '4', '4', '3'], Or.inr rfl, ?_⟩
    rw [show (pyDropRight netloc 4).data =
      netloc.data.take (netloc.data.length - 4) from rfl]
    rw [hpre, show (":443" : String).data = [':', '4', '4', '3'] from rfl]
    rw [List.length_append,
      show ([':', '4', '4', '3'] : List Char).length = 4 from rfl,
      Nat.add_sub_cancel, List.take_left]
  · left
    rfl

theorem mem_of_mem_stripDefaultPort {scheme netloc : String} {c : Char}
    (h : c ∈ (stripDefaultPort scheme netloc).data) : c ∈ netloc.data := by
  rcases stripDefaultPort_cases scheme netloc with he | ⟨suf, _, hdec⟩
  · rwa [he] at h
  · rw [hdec]
    exact List.mem_append.mpr (Or.inl h)

theorem mem_stripDefaultPort_iff {scheme netloc : String} {c : Char}
    (hc : c ≠ ':' ∧ c ≠ '8' ∧ c ≠ '0' ∧ c ≠ '4' ∧ c ≠ '3') :
    c ∈ (stripDefaultPort scheme netloc).data ↔ c ∈ netloc.data := by
  constructor
  · exact mem_of_mem_stripDefaultPort
  · intro h
    rcases stripDefaultPort_cases scheme netloc with he | ⟨suf, hsuf, hdec⟩
    · rwa [he]
    · rw [hdec] at h
      rcases List.mem_append.mp h with h1 | h1
      · exact h1
      · exfalso
        rcases hsuf with rfl | rfl
        · simp only [List.mem_cons, List.not_mem_nil, or_false] at h1
          rcases h1 with rfl | rfl | rfl
          · exact hc.1 rfl
          · exact hc.2.1 rfl
          · exact hc.2.2.1 rfl
        · simp only [List.mem_cons, List.not_mem_nil, or_false] at h1
          rcases h1 with rfl | rfl | rfl | rfl
          · exact hc.1 rfl
          · exact hc.2.2.2.1 rfl
          · exact hc.2.2.2.1 rfl
          · exact hc.2.2.2.2 rfl

theorem mem_pyLower_iff {t : Char} {s : String}
    (h1 : ¬(65 ≤ t.toNat ∧ t.toNat ≤ 90))
    (h2 : ¬(97 ≤ t.toNat ∧ t.toNat ≤ 122)) :
    t ∈ (pyLower s).data ↔ t ∈ s.data := by
  rw [show (pyLower s).data = s.data.map pyLowerChar from rfl]
  constructor
  · intro hm
    obtain ⟨c, hc, he⟩ := List.mem_map.mp hm
    rw [(pyLowerChar_eq_nonletter h1 h2 c).mp he] at hc
    exact hc
  · intro hm
    exact List.mem_map.mpr ⟨t, hm, (pyLowerChar_eq_nonletter h1 h2 t).mpr rfl⟩

theorem pyLower_eq_self_of_map {s : String}
    (h : s.data.map pyLowerChar = s.data) : pyLower s = s := by
  unfold pyLower
  rw [h]

theorem normScheme_of_ne {s : String} (h : s ≠ "")
    (h2 : s.data.map pyLowerChar = s.data) : normScheme s = s := by
  unfold normScheme
  rw [if_neg h]
  exact pyLower_eq_self_of_map h2

theorem normScheme_facts {s : String}
    (h : s = "" ∨ (s.data ≠ [] ∧ isAsciiAlpha (s.data.headD ' ') = true ∧
      s.data.all isSchemeChar = true ∧ s.data.map pyLowerChar = s.data)) :
    (normScheme s).data ≠ [] ∧
    isAsciiAlpha ((normScheme s).data.headD ' ') = true ∧
    (normScheme s).data.all isSchemeChar = true ∧
    (normScheme s).data.map pyLowerChar = (normScheme s).data := by
  rcases h with rfl | ⟨h1, h2, h3, h4⟩
  · exact ⟨by decide, by decide, by decide, by decide⟩
  · have hne : s ≠ "" := fun he => h1 (by rw [he])
    rw [normScheme_of_ne hne h4]
    exact ⟨h1, h2, h3, h4⟩

theorem normPath_ne_empty (p : String) : normPath p ≠ "" := by
  unfold normPath
  split_ifs with h
  · decide
  · exact h

theorem normPath_of_ne {p : String} (h : p ≠ "") : normPath p = p := by
  unfold normPath
  rw [if_neg h]

theorem normQueryPairs_urlencode (h qs : String) :
    normQueryPairs h (urlencode (normQueryPairs h qs)) =
      normQueryPairs h qs := by
  unfold normQueryPairs
  rw [parseQsl_urlencode]
  by_cases hc : ¬ pyEndsWith h "straitstimes.com" = true
  · rw [if_pos hc, if_pos hc]
    rw [stripTrackingParams_sortPairs_stable, sortPairs_sortPairs]
  · rw [if_neg hc, if_neg hc, sortPairs_sortPairs]

theorem stripDefaultPort_netloc_facts {sch nl : String}
    (hdelim : ∀ c ∈ nl.data, ¬ isNetlocDelim c = true)
    (hbr : '[' ∈ nl.data ↔ ']' ∈ nl.data) :
    (∀ c ∈ (stripDefaultPort sch (pyLower nl)).data,
      ¬ isNetlocDelim c = true) ∧
    ('[' ∈ (stripDefaultPort sch (pyLower nl)).data ↔
      ']' ∈ (stripDefaultPort sch (pyLower nl)).data) ∧
    (∀ c ∈ (stripDefaultPort sch (pyLower nl)).data, pyLowerChar c = c) := by
  have hmem : ∀ c ∈ (stripDefaultPort sch (pyLower nl)).data,
      ∃ d ∈ nl.data, c = pyLowerChar d := by
    intro c hc
    have h2 := mem_of_mem_stripDefaultPort hc
    rw [show (pyLower nl).data = nl.data.map pyLowerChar from rfl] at h2
    obtain ⟨d, hd, he⟩ := List.mem_map.mp h2
    exact ⟨d, hd, he.symm⟩
  refine ⟨?_, ?_, ?_⟩
  · intro c hc
    obtain ⟨d, hd, rfl⟩ := hmem c hc
    rw [pyLowerChar_isNetlocDelim]
    exact hdelim d hd
  · rw [mem_stripDefaultPort_iff
      (⟨by decide, by decide, by decide, by decide, by decide⟩),
      mem_stripDefaultPort_iff
      (⟨by decide, by decide, by decide, by decide, by decide⟩),
      mem_pyLower_iff (by decide) (by decide),
      mem_pyLower_iff (by decide) (by decide)]
    exact hbr
  · intro c hc
    obtain ⟨d, hd, rfl⟩ := hmem c hc
    exact pyLowerChar_idem d

/-- C5: `normalize_url` is idempotent on URLs whose first normalization
(1) yields a string that `strip()` leaves unchanged, and (2) produces a
nonempty netloc that no longer carries a strippable default-port suffix.
Re-normalizing such an output returns the same string and the same
fingerprint. -/
theorem normalizeUrl_idempotent {sha256hex : String → String}
    {url n f : String}
    (h : normalizeUrl sha256hex url = .ok (n, f))
    (hstrip : pyStrip n = n)
    (hcond : ∀ r, pyUrlparse (pyStrip url) = .ok r →
      stripDefaultPort (normScheme r.scheme) (pyLower r.netloc) ≠ "" ∧
      stripDefaultPort (normScheme r.scheme)
          (stripDefaultPort (normScheme r.scheme) (pyLower r.netloc)) =
        stripDefaultPort (normScheme r.scheme) (pyLower r.netloc)) :
    normalizeUrl sha256hex n = .ok (n, f) := by
  unfold normalizeUrl at h
  cases hp : pyUrlparse (pyStrip url) with
  | error e =>
    rw [hp] at h
    exact absurd h (by simp)
  | ok r =>
    rw [hp] at h
    dsimp only at h
    have hcore : normalizeCore r = n := by cases h; rfl
    have hsha : sha256hex (normalizeCore r) = f := by cases h; rfl
    obtain ⟨hNne, hNid⟩ := hcond r hp
    obtain ⟨f1, f2, f3, f4, f5, f6, f7, f8⟩ := pyUrlparse_ok_facts hp
    obtain ⟨s1, s2, s3, s4⟩ := normScheme_facts f1
    obtain ⟨n1, n2, n3⟩ := stripDefaultPort_netloc_facts f2 f3
    have hNdata :
        (stripDefaultPort (normScheme r.scheme) (pyLower r.netloc)).data ≠
          [] := by
      intro he
      apply hNne
      rw [← stringMk_data
        (stripDefaultPort (normScheme r.scheme) (pyLower r.netloc)), he]
    have hrn : r.netloc.data ≠ [] := by
      obtain ⟨c, hc⟩ := List.exists_mem_of_ne_nil _ hNdata
      have h2 := mem_of_mem_stripDefaultPort hc
      rw [show (pyLower r.netloc).data = r.netloc.data.map pyLowerChar
        from rfl] at h2
      obtain ⟨d, hd, _⟩ := List.mem_map.mp h2
      intro he
      rw [he] at hd
      cases hd
    have hPfacts : (normPath r.path).data ≠ [] ∧
        (normPath r.path).data.take 1 = ['/'] ∧
        '#' ∉ (normPath r.path).data ∧ '?' ∉ (normPath r.path).data ∧
        splitParams (normPath r.path).data = ((normPath r.path).data, []) := by
      by_cases hpe : r.path = ""
      · rw [show normPath r.path = "/" from by
          unfold normPath
          rw [if_pos hpe]]
        exact ⟨by decide, by decide, by decide, by decide, by decide⟩
      · rw [normPath_of_ne hpe]
        have hpd : r.path.data ≠ [] := fun he =>
          hpe (by rw [← stringMk_data r.path, he])
        refine ⟨hpd, ?_, f4, f5, f8⟩
        rcases f7 hrn with he | ht
        · exact absurd he hpd
        · exact ht
    obtain ⟨p0, p1, p2, p3, p4⟩ := hPfacts
    have hSne : normScheme r.scheme ≠ "" := fun he => s1 (by rw [he])
    have E1 : normScheme (normScheme r.scheme) = normScheme r.scheme :=
      normScheme_of_ne hSne s4
    have E2 : pyLower (stripDefaultPort (normScheme r.scheme)
        (pyLower r.netloc)) =
        stripDefaultPort (normScheme r.scheme) (pyLower r.netloc) :=
      pyLower_eq_self n3
    have hparse2 : pyUrlparse n = .ok
        ⟨normScheme r.scheme,
         stripDefaultPort (normScheme r.scheme) (pyLower r.netloc),
         normPath r.path, "",
         urlencode (normQueryPairs
           (hostOf (stripDefaultPort (normScheme r.scheme)
             (pyLower r.netloc))) r.query), ""⟩ := by
      rw [← hcore]
      rw [show normalizeCore r =
        urlunparse (normScheme r.scheme)
          (stripDefaultPort (normScheme r.scheme) (pyLower r.netloc))
          (normPath r.path) ""
          (urlencode (normQueryPairs
            (hostOf (stripDefaultPort (normScheme r.scheme)
              (pyLower r.netloc))) r.query)) "" from rfl]
      rw [show urlunparse (normScheme r.scheme)
          (stripDefaultPort (normScheme r.scheme) (pyLower r.netloc))
          (normPath r.path) ""
          (urlencode (normQueryPairs
            (hostOf (stripDefaultPort (normScheme r.scheme)
              (pyLower r.netloc))) r.query)) "" =
        urlunsplit (normScheme r.scheme)
          (stripDefaultPort (normScheme r.scheme) (pyLower r.netloc))
          (normPath r.path)
          (urlencode (normQueryPairs
            (hostOf (stripDefaultPort (normScheme r.scheme)
              (pyLower r.netloc))) r.query)) "" from by
        unfold urlunparse
        rw [if_neg (show ¬(("" : String) ≠ "") from fun hh => hh rfl)]]
      exact pyUrlparse_of_urlsplit
        (pyUrlsplit_reconstruct_netloc s1 s2 s3 s4 hNdata n1 n2 p2 p3 p0 p1
          (urlencode_no_hash _)) p4
    unfold normalizeUrl
    rw [hstrip, hparse2]
    dsimp only
    have hcore2 : normalizeCore
        ⟨normScheme r.scheme,
         stripDefaultPort (normScheme r.scheme) (pyLower r.netloc),
         normPath r.path, "",
         urlencode (normQueryPairs
           (hostOf (stripDefaultPort (normScheme r.scheme)
             (pyLower r.netloc))) r.query), ""⟩ = n := by
      rw [show normalizeCore
          ⟨normScheme r.scheme,
           stripDefaultPort (normScheme r.scheme) (pyLower r.netloc),
           normPath r.path, "",
           urlencode (normQueryPairs
             (hostOf (stripDefaultPort (normScheme r.scheme)
               (pyLower r.netloc))) r.query), ""⟩ =
        urlunparse
          (normScheme (normScheme r.scheme))
          (stripDefaultPort (normScheme (normScheme r.scheme))
            (pyLower (stripDefaultPort (normScheme r.scheme)
              (pyLower r.netloc))))
          (normPath (normPath r.path)) ""
          (urlencode (normQueryPairs
            (hostOf (stripDefaultPort (normScheme (normScheme r.scheme))
              (pyLower (stripDefaultPort (normScheme r.scheme)
                (pyLower r.netloc)))))
            (urlencode (normQueryPairs
              (hostOf (stripDefaultPort (normScheme r.scheme)
                (pyLower r.netloc))) r.query)))) "" from rfl]
      rw [E1, E2, hNid, normPath_of_ne (normPath_ne_empty r.path),
        normQueryPairs_urlencode]
      exact hcore
    rw [hcore2]
    rw [hcore] at hsha
    rw [hsha]

/-- Witness: re-normalizing the normalization of a concrete URL is the
identity. -/
theorem normalizeUrl_idempotent_witness :
    normalizeUrl (fun _ => "h") "HTTP://EXAMPLE.com/path" =
      .ok ("http://example.com/path", "h") ∧
    pyStrip "http://example.com/path" = "http://example.com/path" ∧
    normalizeUrl (fun _ => "h") "http://example.com/path" =
      .ok ("http://example.com/path", "h") := by
  refine ⟨rfl, rfl, ?_⟩
  exact @normalizeUrl_idempotent (fun _ => "h") "HTTP://EXAMPLE.com/path"
    "http://example.com/path" "h" rfl rfl (fun r hr => by
      rw [show pyUrlparse (pyStrip "HTTP://EXAMPLE.com/path") =
        .ok (⟨"http", "EXAMPLE.com", "/path", "", "", ""⟩ : ParseResult)
        from rfl] at hr
      injection hr with h2
      subst h2
      exact ⟨by decide, by decide⟩)

/-- C6 counterexample: a truthy `generate_detailed_summary` flag alone —
with no request context at all, hence no request timestamp — already
sends the event down the detail (LLM) path. -/
theorem shouldGenerateDetailed_flag_alone :
    shouldGenerateDetailed
      [("generate_detailed_summary", JValue.bool true)] = .ok true ∧
    dictGet [("generate_detailed_summary", JValue.bool true)]
      "request_context" = .null :=
  ⟨rfl, rfl⟩

/-- C6: when `_should_generate_detailed` returns without raising, it
chooses the detail path exactly when the explicit flag is truthy, or the
effective request context is a dict whose normalized reason is in the
allowed set and whose `requested_at` coerces to an integer — the flag
alone suffices, and the flag is not required when reason and timestamp
are present. -/
theorem shouldGenerateDetailed_spec (event : List (String × JValue))
    (b : Bool) (h : shouldGenerateDetailed event = .ok b) :
    b = true ↔ detailConditions event := by
  unfold shouldGenerateDetailed at h
  unfold detailConditions
  by_cases hf : pyTruthy (dictGet event "generate_detailed_summary") = true
  · rw [if_pos hf] at h
    injection h with h2
    subst h2
    constructor
    · intro _
      exact Or.inl hf
    · intro _
      rfl
  · rw [if_neg hf] at h
    cases hrc : pyOr (dictGet event "request_context") (.obj []) with
    | obj kvs =>
      rw [hrc] at h
      dsimp only at h
      cases hre : pyOr (dictGet kvs "reason") (.str "") with
      | str s =>
        rw [hre] at h
        dsimp only at h
        by_cases hset : pyLower (pyStrip s) ∈
            (["detail", "on_demand_summary", "manual_detail"] : List String)
        · rw [if_pos hset] at h
          cases hco : coerceRequestedAt (dictGet kvs "requested_at") with
          | some v =>
            rw [hco] at h
            dsimp only at h
            injection h with h2
            subst h2
            constructor
            · intro _
              exact Or.inr ⟨kvs, s, rfl, hre, hset, by rw [hco]; rfl⟩
            · intro _
              rfl
          | none =>
            rw [hco] at h
            dsimp only at h
            injection h with h2
            subst h2
            constructor
            · intro hfalse
              exact absurd hfalse (by simp)
            · rintro (hl | ⟨kvs2, s2, hrc2, hre2, hset2, hco2⟩)
              · exact absurd hl hf
              · injection hrc2 with he
                subst he
                rw [hco] at hco2
                simp at hco2
        · rw [if_neg hset] at h
          injection h with h2
          subst h2
          constructor
          · intro hfalse
            exact absurd hfalse (by simp)
          · rintro (hl | ⟨kvs2, s2, hrc2, hre2, hset2, _⟩)
            · exact absurd hl hf
            · injection hrc2 with he
              subst he
              rw [hre] at hre2
              injection hre2 with he2
              subst he2
              exact absurd hset2 hset
      | null =>
        rw [hre] at h
        dsimp only at h
        exact absurd h (by simp)
      | bool b2 =>
        rw [hre] at h
        dsimp only at h
        exact absurd h (by simp)
      | int n =>
        rw [hre] at h
        dsimp only at h
        exact absurd h (by simp)
      | float q =>
        rw [hre] at h
        dsimp only at h
        exact absurd h (by simp)
      | arr xs =>
        rw [hre] at h
        dsimp only at h
        exact absurd h (by simp)
      | obj kvs2 =>
        rw [hre] at h
        dsimp only at h
        exact absurd h (by simp)
    | null =>
      rw [hrc] at h
      dsimp only at h
      injection h with h2
      subst h2
      constructor
      · intro hfalse
        exact absurd hfalse (by simp)
      · rintro (hl | ⟨kvs2, s2, hrc2, _, _, _⟩)
        · exact absurd hl hf
        · exact JValue.noConfusion hrc2
    | bool b2 =>
      rw [hrc] at h
      dsimp only at h
      injection h with h2
      subst h2
      constructor
      · intro hfalse
        exact absurd hfalse (by simp)
      · rintro (hl | ⟨kvs2, s2, hrc2, _, _, _⟩)
        · exact absurd hl hf
        · exact JValue.noConfusion hrc2
    | int n =>
      rw [hrc] at h
      dsimp only at h
      injection h with h2
      subst h2
      constructor
      · intro hfalse
        exact absurd hfalse (by simp)
      · rintro (hl | ⟨kvs2, s2, hrc2, _, _, _⟩)
        · exact absurd hl hf
        · exact JValue.noConfusion hrc2
    | float q =>
      rw [hrc] at h
      dsimp only at h
      injection h with h2
      subst h2
      constructor
      · intro hfalse
        exact absurd hfalse (by simp)
      · rintro (hl | ⟨kvs2, s2, hrc2, _, _, _⟩)
        · exact absurd hl hf
        · exact JValue.noConfusion hrc2
    | str s2 =>
      rw [hrc] at h
      dsimp only at h
      injection h with h2
      subst h2
      constructor
      · intro hfalse
        exact absurd hfalse (by simp)
      · rintro (hl | ⟨kvs2, s2, hrc2, _, _, _⟩)
        · exact absurd hl hf
        · exact JValue.noConfusion hrc2
    | arr xs =>
      rw [hrc] at h
      dsimp only at h
      injection h with h2
      subst h2
      constructor
      · intro hfalse
        exact absurd hfalse (by simp)
      · rintro (hl | ⟨kvs2, s2, hrc2, _, _, _⟩)
        · exact absurd hl hf
        · exact JValue.noConfusion hrc2

/-- Witness for C6: reason plus timestamp, with no flag, takes the
detail path and satisfies the stated conditions. -/
theorem shouldGenerateDetailed_spec_witness :
    shouldGenerateDetailed [("request_context", JValue.obj
      [("reason", JValue.str " Detail "),
       ("requested_at", JValue.str " 1_700 ")])] = .ok true ∧
    detailConditions [("request_context", JValue.obj
      [("reason", JValue.str " Detail "),
       ("requested_at", JValue.str " 1_700 ")])] :=
  ⟨rfl, (shouldGenerateDetailed_spec
    [("request_context", JValue.obj
      [("reason", JValue.str " Detail "),
       ("requested_at", JValue.str " 1_700 ")])] true rfl).mp rfl⟩

theorem addEntry_len (parseDT : String → Option String)
    (st : List FeedEntry × List String)
    (c : Option String × Option String × Option String) :
    (addEntry parseDT st c).1.length = st.1.length ∨
    (addEntry parseDT st c).1.length = st.1.length + 1 := by
  obtain ⟨l, t, p⟩ := c
  unfold addEntry
  cases l with
  | none => exact Or.inl rfl
  | some l0 =>
    dsimp only
    split_ifs with h1 h2
    · exact Or.inl rfl
    · exact Or.inl rfl
    · right
      simp

theorem addEntry_inv (parseDT : String → Option String)
    (st : List FeedEntry × List String)
    (c : Option String × Option String × Option String)
    (h1 : st.1.map FeedEntry.link = st.2) (h2 : st.2.Nodup) :
    (addEntry parseDT st c).1.map FeedEntry.link =
      (addEntry parseDT st c).2 ∧ (addEntry parseDT st c).2.Nodup := by
  obtain ⟨l, t, p⟩ := c
  unfold addEntry
  cases l with
  | none => exact ⟨h1, h2⟩
  | some l0 =>
    dsimp only
    split_ifs with hif1 hif2
    · exact ⟨h1, h2⟩
    · exact ⟨h1, h2⟩
    · rw [not_or] at hif2
      constructor
      · rw [List.map_append, h1]
        rfl
      · rw [List.nodup_append]
        refine ⟨h2, List.nodup_singleton _, ?_⟩
        intro a ha hb
        rw [List.mem_singleton] at hb
        subst hb
        exact hif2.2 ha

theorem runAddLoop_le (parseDT : String → Option String) (limit : Nat) :
    ∀ (cands : List (Option String × Option String × Option String))
      (st : List FeedEntry × List String), st.1.length < limit →
      (runAddLoop parseDT limit st cands).1.length ≤ limit := by
  intro cands
  induction cands with
  | nil =>
    intro st h
    exact Nat.le_of_lt h
  | cons c rest ih =>
    intro st h
    rw [show runAddLoop parseDT limit st (c :: rest) =
      (if limit ≤ (addEntry parseDT st c).1.length then addEntry parseDT st c
       else runAddLoop parseDT limit (addEntry parseDT st c) rest) from rfl]
    by_cases hl : limit ≤ (addEntry parseDT st c).1.length
    · rw [if_pos hl]
      rcases addEntry_len parseDT st c with he | he
      · rw [he]
        omega
      · rw [he]
        omega
    · rw [if_neg hl]
      exact ih _ (Nat.lt_of_not_le hl)

theorem runAddLoop_inv (parseDT : String → Option String) (limit : Nat) :
    ∀ (cands : List (Option String × Option String × Option String))
      (st : List FeedEntry × List String),
      st.1.map FeedEntry.link = st.2 → st.2.Nodup →
      (runAddLoop parseDT limit st cands).1.map FeedEntry.link =
        (runAddLoop parseDT limit st cands).2 ∧
      (runAddLoop parseDT limit st cands).2.Nodup := by
  intro cands
  induction cands with
  | nil =>
    intro st h1 h2
    exact ⟨h1, h2⟩
  | cons c rest ih =>
    intro st h1 h2
    rw [show runAddLoop parseDT limit st (c :: rest) =
      (if limit ≤ (addEntry parseDT st c).1.length then addEntry parseDT st c
       else runAddLoop parseDT limit (addEntry parseDT st c) rest) from rfl]
    by_cases hl : limit ≤ (addEntry parseDT st c).1.length
    · rw [if_pos hl]
      exact addEntry_inv parseDT st c h1 h2
    · rw [if_neg hl]
      obtain ⟨g1, g2⟩ := addEntry_inv parseDT st c h1 h2
      exact ih _ g1 g2

/-- C10: after a successful XML parse, the dispatcher feed parse returns
at most 20 entries (the default limit) and no two returned entries share
the same link string, for every document and every datetime oracle. -/
theorem fetchFeedEntries_bounded (parseDT : String → Option String)
    (root : XmlElem) :
    (fetchFeedEntries parseDT 20 root).length ≤ 20 ∧
    ((fetchFeedEntries parseDT 20 root).map FeedEntry.link).Nodup := by
  unfold fetchFeedEntries
  have h1le := runAddLoop_le parseDT 20 (phase1Cands root) ([], [])
    (by simp)
  have h1inv := runAddLoop_inv parseDT 20 (phase1Cands root) ([], [])
    rfl List.nodup_nil
  by_cases hbig :
      20 ≤ (runAddLoop parseDT 20 ([], []) (phase1Cands root)).1.length
  · rw [if_pos hbig]
    refine ⟨h1le, ?_⟩
    rw [h1inv.1]
    exact h1inv.2
  · rw [if_neg hbig]
    unfold feedPhase23
    have h2le := runAddLoop_le parseDT 20 (phase2Cands root)
      (runAddLoop parseDT 20 ([], []) (phase1Cands root))
      (Nat.lt_of_not_le hbig)
    have h2inv := runAddLoop_inv parseDT 20 (phase2Cands root)
      (runAddLoop parseDT 20 ([], []) (phase1Cands root))
      h1inv.1 h1inv.2
    by_cases hemp : (runAddLoop parseDT 20
        (runAddLoop parseDT 20 ([], []) (phase1Cands root))
        (phase2Cands root)).1 = []
    · rw [if_pos hemp]
      have h3le := runAddLoop_le parseDT 20 (phase3Cands root)
        (runAddLoop parseDT 20
          (runAddLoop parseDT 20 ([], []) (phase1Cands root))
          (phase2Cands root))
        (by rw [hemp]; decide)
      have h3inv := runAddLoop_inv parseDT 20 (phase3Cands root)
        (runAddLoop parseDT 20
          (runAddLoop parseDT 20 ([], []) (phase1Cands root))
          (phase2Cands root))
        h2inv.1 h2inv.2
      refine ⟨h3le, ?_⟩
      rw [h3inv.1]
      exact h3inv.2
    · rw [if_neg hemp]
      refine ⟨h2le, ?_⟩
      rw [h2inv.1]
      exact h2inv.2

/-- C9 counterexample: the spec scenario — two adjacent identical
text-block divs — joins the paragraphs with a blank line, and the
adjacent-line dedup does not collapse across the blank line: the
extractor returns two copies, not one. -/
theorem extractBbcArticle_keeps_blank_separated_duplicate :
    extractBbcArticle (fun s => s)
      "<div data-component=\"text-block\">Para one.</div><div data-component=\"text-block\">Para one.</div>" =
      some "Para one.\n\nPara one." ∧
    some ("Para one.\n\nPara one." : String) ≠ some "Para one." := by
  exact ⟨by decide, by decide⟩

/-- C9: lines repeated with no blank line between them — a genuinely
immediate duplicate, here inside one text block — are collapsed to a
single copy, for every HTML-to-text oracle (the block holds no markup,
so the oracle is never consulted). -/
theorem extractBbcArticle_dedups (oracle : String → String) :
    extractBbcArticle oracle
      "<div data-component=\"text-block\">Para one.\nPara one.</div>" =
      some "Para one." := by
  rfl

/-- C4 counterexample: with a record read as `pending`, the handler
returns 202/pending even when the worker ARN is unconfigured and the
store would let the conditional write succeed (`writeStatus = none`) —
the path through the conditional write (`afterPendingChecks`), which
would return 500 here, is never reached, so the 202 does not come from
observing a conditional-write failure. -/
theorem handleDetailRequest_pending_skips_cond_write :
    handleDetailRequest ⟨1000, 600, 0, false, false⟩
      ⟨"", some "pending", none, none⟩ none =
      ⟨202, some "pending", 0, false, false⟩ ∧
    afterPendingChecks ⟨1000, 600, 0, false, false⟩ none false false =
      ⟨500, none, 0, false, false⟩ :=
  ⟨by decide, by decide⟩

/-- C4: a detail request that reads a record already `pending` and not
timed out returns HTTP 202 with status `pending`, performs no worker
invocation and no write — regardless of the store state at write time,
because the conditional write is never reached; and independently, the
conditional pending write can never fire against a store that is already
`pending` (first-writer-wins). -/
theorem handleDetailRequest_pending_spec (cfg : DetailConfig)
    (r : DetailRecord) (w : Option String)
    (hpend : cleanOptStr r.detail_status = some "pending")
    (hnt : ∀ t, r.detail_requested_at = some t →
      ¬(cfg.pendingTimeout > 0 ∧ t + cfg.pendingTimeout ≤ cfg.now)) :
    handleDetailRequest cfg r w = ⟨202, some "pending", 0, false, false⟩ ∧
    (∀ (a l : Bool) (res : StartResult),
      startDetailGeneration a l (some "pending") = .ok res →
      res.started = false ∧ res.invocations = 0 ∧
        res.wrotePending = false) := by
  constructor
  · unfold handleDetailRequest
    rw [if_neg (show ¬(pyStrip r.summary_long ≠ "" ∧
        cleanOptStr r.detail_status = some "ready" ∧
        ¬ isDetailExpired cfg r) by
      rintro ⟨_, hb, _⟩
      rw [hpend] at hb
      exact absurd hb (by decide))]
    rw [if_pos hpend]
    cases hra : r.detail_requested_at with
    | none => rfl
    | some t =>
      dsimp only
      rw [if_neg (hnt t hra)]
  · intro a l res h
    unfold startDetailGeneration at h
    split_ifs at h with h1 h2 h3 <;>
      first
        | exact absurd rfl h3
        | exact Except.noConfusion h
        | (injection h with h4
           rw [← h4]
           exact ⟨rfl, rfl, rfl⟩)

/-- Witness for C4: a pending, non-timed-out record yields 202/pending
with no invocation and no write. -/
theorem handleDetailRequest_pending_spec_witness :
    cleanOptStr (some "pending") = some "pending" ∧
    handleDetailRequest ⟨1000, 600, 0, true, true⟩
      ⟨"", some "pending", none, none⟩ (some "pending") =
      ⟨202, some "pending", 0, false, false⟩ := by
  refine ⟨by decide, ?_⟩
  exact (handleDetailRequest_pending_spec ⟨1000, 600, 0, true, true⟩
    ⟨"", some "pending", none, none⟩ (some "pending") (by decide)
    (fun t ht => Option.noConfusion ht)).1

theorem lazyAsc_some {α : Type} {k : Nat → Option α} {r : α} :
    ∀ {j n : Nat}, lazyAsc k n j = some r → ∃ m, k m = some r := by
  intro j
  induction j with
  | zero =>
    intro n h
    exact ⟨n, h⟩
  | succ j ih =>
    intro n h
    rw [show lazyAsc k n (j + 1) =
      (match k n with
       | some r2 => some r2
       | none => lazyAsc k (n + 1) j) from rfl] at h
    cases hk : k n with
    | some r2 =>
      rw [hk] at h
      exact ⟨n, hk.trans h⟩
    | none =>
      rw [hk] at h
      exact ih h

theorem fenceClose_shape {s8 : List Char} {n : Nat} {g rest : List Char}
    (h : fenceClose s8 n = some (g, rest)) :
    ∃ mid, g = '\x7b' :: (mid ++ ['\x7d']) := by
  unfold fenceClose at h
  split_ifs at h with h1
  cases hml : matchLit "```".data
      (((s8.drop n).drop 1).dropWhile pyIsSpace) with
  | none =>
    rw [hml] at h
    exact absurd h (by simp)
  | some r10 =>
    rw [hml] at h
    injection h with h2
    injection h2 with hg hr
    exact ⟨s8.take n, hg.symm⟩

theorem fenceBody_shape {s2 g rest : List Char}
    (h : fenceBody s2 = some (g, rest)) :
    ∃ mid, g = '\x7b' :: (mid ++ ['\x7d']) := by
  unfold fenceBody at h
  split_ifs at h with h1
  obtain ⟨m, hk⟩ := lazyAsc_some h
  exact fenceClose_shape hk

theorem fenceMatchAt_shape {s g rest : List Char}
    (h : fenceMatchAt s = some (g, rest)) :
    ∃ mid, g = '\x7b' :: (mid ++ ['\x7d']) := by
  unfold fenceMatchAt at h
  cases h1 : matchLit "```".data s with
  | none =>
    rw [h1] at h
    exact absurd h (by simp)
  | some s1 =>
    rw [h1] at h
    dsimp only at h
    cases h2 : matchLit "json".data s1 with
    | none =>
      rw [h2] at h
      exact fenceBody_shape h
    | some s2 =>
      rw [h2] at h
      dsimp only at h
      cases h3 : fenceBody s2 with
      | none =>
        rw [h3] at h
        exact fenceBody_shape h
      | some r =>
        rw [h3] at h
        injection h with h4
        obtain ⟨a, b⟩ := r
        cases h4
        exact fenceBody_shape h3

theorem fenceFindAllAux_shape :
    ∀ (fuel : Nat) (s : List Char), ∀ g ∈ fenceFindAllAux fuel s,
      ∃ mid, g = '\x7b' :: (mid ++ ['\x7d']) := by
  intro fuel
  induction fuel with
  | zero =>
    intro s g hg
    simp [fenceFindAllAux] at hg
  | succ fuel ih =>
    intro s g hg
    simp only [fenceFindAllAux] at hg
    cases hm : fenceMatchAt s with
    | some p =>
      obtain ⟨g2, rest⟩ := p
      rw [hm] at hg
      dsimp only at hg
      rcases List.mem_cons.mp hg with rfl | hg2
      · exact fenceMatchAt_shape hm
      · exact ih rest g hg2
    | none =>
      rw [hm] at hg
      dsimp only at hg
      cases s with
      | nil => simp at hg
      | cons c t => exact ih t g hg

theorem scanBalanced_shape :
    ∀ (s : List Char) (depth : Nat) (cur : List Char)
      (acc : List (List Char)),
      (∀ a ∈ acc, ∃ mid, a = '\x7b' :: (mid ++ ['\x7d'])) →
      ∀ g ∈ scanBalanced s depth cur acc,
        ∃ mid, g = '\x7b' :: (mid ++ ['\x7d']) := by
  intro s
  induction s with
  | nil =>
    intro depth cur acc hacc g hg
    rw [show scanBalanced [] depth cur acc = acc.reverse from rfl] at hg
    exact hacc g (List.mem_reverse.mp hg)
  | cons c rest ih =>
    intro depth cur acc hacc g hg
    rw [show scanBalanced (c :: rest) depth cur acc =
      (if c = '\x7b' then
        if depth = 0 then scanBalanced rest 1 [] acc
        else scanBalanced rest (depth + 1) ('\x7b' :: cur) acc
      else if c = '\x7d' then
        if depth = 0 then scanBalanced rest 0 cur acc
        else if depth = 1 then
          scanBalanced rest 0 []
            (('\x7b' :: (cur.reverse ++ ['\x7d'])) :: acc)
        else scanBalanced rest (depth - 1) ('\x7d' :: cur) acc
      else
        if depth = 0 then scanBalanced rest depth cur acc
        else scanBalanced rest depth (c :: cur) acc) from rfl] at hg
    split_ifs at hg
    · exact ih 1 [] acc hacc g hg
    · exact ih (depth + 1) _ acc hacc g hg
    · exact ih 0 cur acc hacc g hg
    · refine ih 0 [] _ ?_ g hg
      intro a ha
      rcases List.mem_cons.mp ha with rfl | ha2
      · exact ⟨cur.reverse, rfl⟩
      · exact hacc a ha2
    · exact ih (depth - 1) _ acc hacc g hg
    · exact ih depth cur acc hacc g hg
    · exact ih depth _ acc hacc g hg

theorem pyStripList_brace (mid : List Char) :
    pyStripList ('\x7b' :: (mid ++ ['\x7d'])) =
      '\x7b' :: (mid ++ ['\x7d']) := by
  unfold pyStripList
  rw [List.dropWhile_cons, if_neg (by decide)]
  rw [show ('\x7b' :: (mid ++ ['\x7d'])).reverse =
    '\x7d' :: (mid.reverse ++ ['\x7b']) from by simp]
  rw [List.dropWhile_cons, if_neg (by decide)]
  rw [show ('\x7d' :: (mid.reverse ++ ['\x7b'])).reverse =
    '\x7b' :: (mid ++ ['\x7d']) from by simp]

theorem findJsonCandidates_head (text : String) :
    ∀ c ∈ findJsonCandidates text, c.data.take 1 = ['\x7b'] := by
  intro c hc
  unfold findJsonCandidates at hc
  cases hf : fenceFindAllAux (text.data.length + 1) text.data with
  | nil =>
    rw [hf] at hc
    dsimp only at hc
    obtain ⟨l, hl, rfl⟩ := List.mem_map.mp hc
    obtain ⟨mid, rfl⟩ := scanBalanced_shape text.data 0 [] []
      (by simp) l hl
    rw [show (String.mk (pyStripList
      ('\x7b' :: (mid ++ ['\x7d'])))).data =
      pyStripList ('\x7b' :: (mid ++ ['\x7d'])) from rfl]
    rw [pyStripList_brace]
    rfl
  | cons g gs =>
    rw [hf] at hc
    dsimp only at hc
    obtain ⟨l, hl, rfl⟩ := List.mem_map.mp hc
    obtain ⟨mid, rfl⟩ := fenceFindAllAux_shape (text.data.length + 1)
      text.data l (hf ▸ hl)
    rw [show (String.mk (pyStripList
      ('\x7b' :: (mid ++ ['\x7d'])))).data =
      pyStripList ('\x7b' :: (mid ++ ['\x7d'])) from rfl]
    rw [pyStripList_brace]
    rfl

theorem jsonValueCore_obj {fuel : Nat} {rest : List Char} {v : JValue}
    {r : List Char}
    (h : jsonValueCore fuel ('\x7b' :: rest) = .ok (v, r)) :
    ∃ kvs, v = .obj kvs := by
  cases fuel with
  | zero =>
    rw [show jsonValueCore 0 ('\x7b' :: rest) = .error () from rfl] at h
    exact absurd h (by simp)
  | succ fuel =>
    rw [show jsonValueCore (fuel + 1) ('\x7b' :: rest) =
      (match jsonObjectBody fuel rest with
       | .ok (kvs, r) => .ok (.obj kvs, r)
       | .error e => .error e) from rfl] at h
    cases hob : jsonObjectBody fuel rest with
    | error e =>
      rw [hob] at h
      exact absurd h (by simp)
    | ok p =>
      obtain ⟨kvs, r2⟩ := p
      rw [hob] at h
      dsimp only at h
      injection h with h2
      injection h2 with hv hr
      exact ⟨kvs, hv.symm⟩

theorem jsonLoads_obj {c : String} {v : JValue}
    (h : jsonLoads c = .ok v) (hh : c.data.take 1 = ['\x7b']) :
    ∃ kvs, v = .obj kvs := by
  obtain ⟨tl, hdata⟩ : ∃ tl, c.data = '\x7b' :: tl := by
    cases hd : c.data with
    | nil => rw [hd] at hh; simp at hh
    | cons d tl =>
      rw [hd] at hh
      simp only [List.take_succ_cons, List.take_zero,
        List.cons.injEq] at hh
      exact ⟨tl, by rw [hh.1]⟩
  unfold jsonLoads at h
  rw [hdata] at h
  rw [show List.dropWhile isJsonWs ('\x7b' :: tl) = '\x7b' :: tl from by
    rw [List.dropWhile_cons, if_neg (by decide)]] at h
  cases hvc : jsonValueCore (4 * ('\x7b' :: tl).length + 8)
      ('\x7b' :: tl) with
  | error e =>
    rw [hvc] at h
    exact absurd h (by simp)
  | ok p =>
    obtain ⟨v2, rest⟩ := p
    rw [hvc] at h
    dsimp only at h
    by_cases hrest : rest.dropWhile isJsonWs = []
    · rw [if_pos hrest] at h
      injection h with h2
      subst h2
      exact jsonValueCore_obj hvc
    · rw [if_neg hrest] at h
      exact absurd h (by simp)

theorem normaliseSchema_err {pyStr : JValue → String}
    {kvs : List (String × JValue)} {e : PyExc}
    (h : normaliseSchema pyStr (.obj kvs) = .error e) :
    e = .runtimeError := by
  unfold normaliseSchema at h
  dsimp only at h
  cases hd : (kvs.lookup "diff_points").getD (.arr []) with
  | str s =>
    rw [hd] at h
    exact absurd h (by simp)
  | arr xs =>
    rw [hd] at h
    exact absurd h (by simp)
  | null =>
    rw [hd] at h
    injection h with h2
    exact h2.symm
  | bool b =>
    rw [hd] at h
    injection h with h2
    exact h2.symm
  | int n =>
    rw [hd] at h
    injection h with h2
    exact h2.symm
  | float q =>
    rw [hd] at h
    injection h with h2
    exact h2.symm
  | obj kvs2 =>
    rw [hd] at h
    injection h with h2
    exact h2.symm

theorem trySummaryCandidates_ok (pyStr : JValue → String) :
    ∀ cs : List String, (∀ c ∈ cs, c.data.take 1 = ['\x7b']) →
      ∃ o, trySummaryCandidates pyStr cs = .ok o := by
  intro cs
  induction cs with
  | nil =>
    intro _
    exact ⟨none, rfl⟩
  | cons c rest ih =>
    intro hA
    obtain ⟨o, ho⟩ := ih fun x hx => hA x (List.mem_cons_of_mem c hx)
    simp only [trySummaryCandidates]
    cases hj : jsonLoads c with
    | error e => exact ⟨o, ho⟩
    | ok parsed =>
      obtain ⟨kvs, rfl⟩ := jsonLoads_obj hj (hA c (List.mem_cons_self c rest))
      dsimp only
      cases hn : normaliseSchema pyStr (.obj kvs) with
      | ok r => exact ⟨some r, rfl⟩
      | error e =>
        have he := normaliseSchema_err hn
        subst he
        exact ⟨o, ho⟩

theorem pySplitlinesList_ne_nil (l : List Char) (h : l ≠ []) :
    pySplitlinesList l ≠ [] := by
  cases l with
  | nil => exact absurd rfl h
  | cons c rest =>
    rw [pySplitlinesList.eq_def]
    split
    · simp_all
    · simp
    · simp
    · simp
    · split <;> simp

theorem pySplitlines_ne_nil {s : String} (h : s ≠ "") :
    pySplitlines s ≠ [] := by
  have hd : s.data ≠ [] := by
    intro he
    exact h (by rw [← stringMk_data s, he])
  unfold pySplitlines
  intro hm
  exact pySplitlinesList_ne_nil s.data hd (List.map_eq_nil_iff.mp hm)

theorem summaryFallback_ok (pyStr : JValue → String) (text : String) :
    ∃ r, summaryFallback pyStr text = .ok r := by
  unfold summaryFallback
  by_cases h1 : cleanSummaryText text ≠ ""
  · rw [if_pos h1]
    exact ⟨_, rfl⟩
  · rw [if_neg h1]
    by_cases h2 : text ≠ ""
    · rw [if_pos h2]
      cases hs : pySplitlines text with
      | nil => exact absurd hs (pySplitlines_ne_nil h2)
      | cons l rest =>
        dsimp only
        by_cases h3 : cleanSummaryText l ≠ ""
        · rw [if_pos h3]
          exact ⟨_, rfl⟩
        · rw [if_neg h3]
          exact ⟨_, rfl⟩
    · rw [if_neg h2]
      by_cases h3 : cleanSummaryText "" ≠ ""
      · rw [if_pos h3]
        exact ⟨_, rfl⟩
      · rw [if_neg h3]
        exact ⟨_, rfl⟩

/-- C2: `_parse_summary_text` terminates without raising on every input
string — empty, plain prose, or malformed JSON — and returns a result
with a string `summary_long` and a list-of-strings `diff_points`
(guaranteed by the `SummaryResult` type), for every `str()` oracle. -/
theorem parseSummaryText_total (pyStr : JValue → String) (text : String) :
    ∃ r : SummaryResult, parseSummaryText pyStr text = .ok r := by
  unfold parseSummaryText
  obtain ⟨o, ho⟩ := trySummaryCandidates_ok pyStr (findJsonCandidates text)
    (findJsonCandidates_head text)
  rw [ho]
  cases o with
  | some r => exact ⟨r, rfl⟩
  | none => exact summaryFallback_ok pyStr text

end NewsPipeline
